import Mathlib

/-!
Verification of the STEPSCREEN evidence-gathering extraction pipeline.

Each definition is a shallow embedding of a function of the repository,
with the source file and line range recorded in its doc comment.
Text is modelled as `List Char` (Python `str`), scores as `Nat`, and
completeness percentages as `Rat` (Python floats; the values the claims
depend on are exact decimals).
-/

/-- Python `str` is modelled as a list of characters. -/
abbrev Str := List Char

/-- Python `needle in hay` (contiguous-substring test, `str.__contains__`). -/
def containsSub (hay needle : Str) : Bool :=
  (List.range (hay.length + 1)).any (fun i => needle.isPrefixOf (hay.drop i))

/-- ASCII lowering of one character, the effect of Python `str.lower()`
on the ASCII texts handled by the pipeline. -/
def lowerChar (c : Char) : Char :=
  if 'A' ≤ c ∧ c ≤ 'Z' then Char.ofNat (c.toNat + 32) else c

/-- Python `str.lower()`. -/
def lowerStr (s : Str) : Str := s.map lowerChar

/-- A list of rationals is non-decreasing (used to state the best-so-far
invariant of the retry controllers). -/
def nonDecr : List ℚ → Bool
  | [] => true
  | [_] => true
  | a :: b :: t => decide (a ≤ b) && nonDecr (b :: t)

section RetryController

variable {R : Type}

/-- One attempt of `NovaSECExtractor.search_and_extract`
(`src/nova_sec_extractor.py`, lines 804-894), as observed by the retry loop:
the attempt either raises an exception (`err`, the `except` branch at line
885), returns early because the search produced no usable documents
(`noResults`, the early returns at lines 823-832), or completes with a
compiled results record and its completeness score (`ok`, lines 843-860). -/
inductive NovaAttempt (R : Type) where
  | err : NovaAttempt R
  | noResults : NovaAttempt R
  | ok : R → ℚ → NovaAttempt R

/-- The retry loop of `NovaSECExtractor.search_and_extract`
(`src/nova_sec_extractor.py`, lines 800-894).  `attempt` is the loop
counter; the first argument is `max_retries - attempt`, so the loop guard
`attempt < max_retries` (lines 876, 887) is "first argument nonzero";
`(best, bestC)` are the mutable `best_result` / `best_completeness`
(lines 801-802, updated at lines 865-867 by the strict test
`completeness > best_completeness`).  The first component of the result is
the trace of `best_completeness` after each executed attempt; the second
is the returned record.  `emptyFall` stands for `_create_empty_result`.
On exhaustion with `best_result` still `None` (no attempt ever beat
completeness 0), line 882 calls `_save_results(None, ...)`, whose
`result.get(...)` at line 1175 raises before any try block; the loop's
`except` at line 885 catches it, `attempt < max_retries` is false, and
`best_result` is falsy, so line 894 returns
`_create_empty_result(company_name, "Extraction error: ...")` — hence
that branch yields `emptyFall`, not `None`. -/
def novaGo (outcomes : ℕ → NovaAttempt R) (emptyFall : R) :
    ℕ → ℕ → Option R → ℚ → List ℚ × Option R
  | 0, attempt, best, bestC =>
    (match outcomes attempt with
    | .err =>
      match best with
      | some b => ([bestC], some b)
      | none => ([bestC], some emptyFall)
    | .noResults => ([bestC], some emptyFall)
    | .ok r c =>
      let best' : Option R × ℚ := if bestC < c then (some r, c) else (best, bestC)
      if (95 : ℚ) ≤ c then ([best'.2], some r)
      else
        ([best'.2],
          match best'.1 with
          | some b => some b
          | none => some emptyFall))
  | Nat.succ rem, attempt, best, bestC =>
    (match outcomes attempt with
    | .err =>
      let out := novaGo outcomes emptyFall rem (attempt + 1) best bestC
      (bestC :: out.1, out.2)
    | .noResults => ([bestC], some emptyFall)
    | .ok r c =>
      let best' : Option R × ℚ := if bestC < c then (some r, c) else (best, bestC)
      if (95 : ℚ) ≤ c then ([best'.2], some r)
      else
        let out := novaGo outcomes emptyFall rem (attempt + 1) best'.1 best'.2
        (best'.2 :: out.1, out.2))

/-- Entry point of the `NovaSECExtractor.search_and_extract` retry control
(`src/nova_sec_extractor.py`, lines 788-894): starts at attempt 0 with
`best_result = None`, `best_completeness = 0.0`. -/
def novaSearchAndExtract (outcomes : ℕ → NovaAttempt R) (emptyFall : R)
    (maxRetries : ℕ) : List ℚ × Option R :=
  novaGo outcomes emptyFall maxRetries 0 none 0

/-- The retry loop of `SerperCxOSearcher.search_cxo_from_website`
(`src/cxo_website_extractor.py`, lines 427-527).  Every attempt completes
with a result record and a completeness score (there is no try/except and
no early-return branch in this loop); best-so-far is tracked at lines
508-510 with the strict test `completeness > best_completeness`, the
threshold return is at lines 513-515, and exhaustion returns `best_result`
(line 524, possibly `None`). -/
def cxoGo (outcomes : ℕ → R × ℚ) :
    ℕ → ℕ → Option R → ℚ → List ℚ × Option R
  | 0, attempt, best, bestC =>
    let rc := outcomes attempt
    let best' : Option R × ℚ :=
      if bestC < rc.2 then (some rc.1, rc.2) else (best, bestC)
    if (95 : ℚ) ≤ rc.2 then ([best'.2], some rc.1)
    else ([best'.2], best'.1)
  | Nat.succ rem, attempt, best, bestC =>
    let rc := outcomes attempt
    let best' : Option R × ℚ :=
      if bestC < rc.2 then (some rc.1, rc.2) else (best, bestC)
    if (95 : ℚ) ≤ rc.2 then ([best'.2], some rc.1)
    else
      let out := cxoGo outcomes rem (attempt + 1) best'.1 best'.2
      (best'.2 :: out.1, out.2)

/-- Entry point of the `SerperCxOSearcher.search_cxo_from_website` retry control
(`src/cxo_website_extractor.py`, lines 414-527). -/
def cxoSearchFromWebsite (outcomes : ℕ → R × ℚ) (maxRetries : ℕ) :
    List ℚ × Option R :=
  cxoGo outcomes maxRetries 0 none 0

end RetryController

@[simp] lemma nonDecr_cons_cons (a b : ℚ) (t : List ℚ) :
    nonDecr (a :: b :: t) = (decide (a ≤ b) && nonDecr (b :: t)) := rfl

@[simp] lemma nonDecr_single (a : ℚ) : nonDecr [a] = true := rfl

section RetryTheorems

variable {R : Type}

lemma cxoGo_trace (outcomes : ℕ → R × ℚ) :
    ∀ (remaining attempt : ℕ) (best : Option R) (bestC : ℚ),
    ∃ h t, (cxoGo outcomes remaining attempt best bestC).1 = h :: t ∧
      bestC ≤ h ∧ nonDecr (h :: t) = true ∧ (h :: t).length ≤ remaining + 1 := by
  intro remaining
  induction remaining with
  | zero =>
    intro attempt best bestC
    refine ⟨(if bestC < (outcomes attempt).2 then ((some (outcomes attempt).1 : Option R), (outcomes attempt).2) else (best, bestC)).2, [], ?_, ?_, by simp, by simp⟩
    · simp only [cxoGo]
      split <;> rfl
    · split <;> simp <;> linarith
  | succ rem ih =>
    intro attempt best bestC
    by_cases hth : (95 : ℚ) ≤ (outcomes attempt).2
    · refine ⟨(if bestC < (outcomes attempt).2 then ((some (outcomes attempt).1 : Option R), (outcomes attempt).2) else (best, bestC)).2, [], ?_, ?_, by simp, by simp⟩
      · simp only [cxoGo, if_pos hth]
      · split <;> simp <;> linarith
    · obtain ⟨h, t, heq, hle, hmono, hlen⟩ :=
        ih (attempt + 1)
          (if bestC < (outcomes attempt).2 then ((some (outcomes attempt).1 : Option R), (outcomes attempt).2) else (best, bestC)).1
          (if bestC < (outcomes attempt).2 then ((some (outcomes attempt).1 : Option R), (outcomes attempt).2) else (best, bestC)).2
      refine ⟨(if bestC < (outcomes attempt).2 then ((some (outcomes attempt).1 : Option R), (outcomes attempt).2) else (best, bestC)).2, h :: t, ?_, ?_, ?_, ?_⟩
      · simp only [cxoGo, if_neg hth]
        rw [heq]
      · split <;> simp <;> linarith
      · simp only [nonDecr_cons_cons, hmono, Bool.and_true, decide_eq_true_eq]
        exact hle
      · simpa using Nat.succ_le_succ hlen

lemma novaGo_trace (outcomes : ℕ → NovaAttempt R) (emptyFall : R) :
    ∀ (remaining attempt : ℕ) (best : Option R) (bestC : ℚ),
    ∃ h t, (novaGo outcomes emptyFall remaining attempt best bestC).1 = h :: t ∧
      bestC ≤ h ∧ nonDecr (h :: t) = true ∧ (h :: t).length ≤ remaining + 1 := by
  intro remaining
  induction remaining with
  | zero =>
    intro attempt best bestC
    match hout : outcomes attempt with
    | .err =>
      refine ⟨bestC, [], ?_, le_refl _, by simp, by simp⟩
      simp only [novaGo, hout]
      cases best <;> rfl
    | .noResults =>
      exact ⟨bestC, [], by simp only [novaGo, hout], le_refl _, by simp, by simp⟩
    | .ok r c =>
      refine ⟨(if bestC < c then ((some r : Option R), c) else (best, bestC)).2, [],
        ?_, ?_, by simp, by simp⟩
      · simp only [novaGo, hout]
        split <;> rfl
      · split <;> simp <;> linarith
  | succ rem ih =>
    intro attempt best bestC
    match hout : outcomes attempt with
    | .err =>
      obtain ⟨h, t, heq, hle, hmono, hlen⟩ := ih (attempt + 1) best bestC
      refine ⟨bestC, h :: t, ?_, le_refl _, ?_, ?_⟩
      · simp only [novaGo, hout]
        rw [heq]
      · simp only [nonDecr_cons_cons, hmono, Bool.and_true, decide_eq_true_eq]
        exact hle
      · simpa using Nat.succ_le_succ hlen
    | .noResults =>
      exact ⟨bestC, [], by simp only [novaGo, hout], le_refl _, by simp, by simp⟩
    | .ok r c =>
      by_cases hth : (95 : ℚ) ≤ c
      · refine ⟨(if bestC < c then ((some r : Option R), c) else (best, bestC)).2, [],
          ?_, ?_, by simp, by simp⟩
        · simp only [novaGo, hout, if_pos hth]
        · split <;> simp <;> linarith
      · obtain ⟨h, t, heq, hle, hmono, hlen⟩ :=
          ih (attempt + 1)
            (if bestC < c then ((some r : Option R), c) else (best, bestC)).1
            (if bestC < c then ((some r : Option R), c) else (best, bestC)).2
        refine ⟨(if bestC < c then ((some r : Option R), c) else (best, bestC)).2,
          h :: t, ?_, ?_, ?_, ?_⟩
        · simp only [novaGo, hout, if_neg hth]
          rw [heq]
        · split <;> simp <;> linarith
        · simp only [nonDecr_cons_cons, hmono, Bool.and_true, decide_eq_true_eq]
          exact hle
        · simpa using Nat.succ_le_succ hlen

example :
    (cxoSearchFromWebsite (fun i => ((i : ℕ), [(40 : ℚ), 70, 55, 90].getD i 0)) 3).1
      = [40, 70, 70, 90] := by decide

/-- C1: For every run of the retry controller (`search_and_extract` /
`search_cxo_from_website`) with any sequence of per-attempt completeness
values, the tracked best-so-far completeness is non-decreasing across
attempts, and at most `maxRetries + 1` full pipeline attempts are executed
before the loop terminates.  The last conjunct checks the spec's simulated
sequence: attempt completeness `[40, 70, 55, 90]` (threshold 95 never met,
`max_retries = 3`) produces the best-so-far trace `[40, 70, 70, 90]`. -/
theorem retry_bestSoFar_nondecreasing_and_bounded :
    (∀ (R : Type) (outcomes : ℕ → NovaAttempt R) (emptyFall : R) (maxRetries : ℕ),
      nonDecr (novaSearchAndExtract outcomes emptyFall maxRetries).1 = true ∧
      (novaSearchAndExtract outcomes emptyFall maxRetries).1.length ≤ maxRetries + 1) ∧
    (∀ (R : Type) (outcomes : ℕ → R × ℚ) (maxRetries : ℕ),
      nonDecr (cxoSearchFromWebsite outcomes maxRetries).1 = true ∧
      (cxoSearchFromWebsite outcomes maxRetries).1.length ≤ maxRetries + 1) ∧
    (cxoSearchFromWebsite (fun i => ((i : ℕ), [(40 : ℚ), 70, 55, 90].getD i 0)) 3).1
      = [40, 70, 70, 90] := by
  refine ⟨?_, ?_, by decide⟩
  · intro R outcomes emptyFall maxRetries
    obtain ⟨h, t, heq, _, hmono, hlen⟩ := novaGo_trace outcomes emptyFall maxRetries 0 none 0
    unfold novaSearchAndExtract
    rw [heq]
    exact ⟨hmono, hlen⟩
  · intro R outcomes maxRetries
    obtain ⟨h, t, heq, _, hmono, hlen⟩ := cxoGo_trace outcomes maxRetries 0 none 0
    unfold cxoSearchFromWebsite
    rw [heq]
    exact ⟨hmono, hlen⟩

/-- The pure reducer implicit in the best-so-far updates of the retry
loops (`if completeness > best_completeness: best_completeness = ...;
best_result = ...`, `src/nova_sec_extractor.py` lines 865-867). -/
def pickBetter {R : Type} (b : Option R × ℚ) (rc : R × ℚ) : Option R × ℚ :=
  if b.2 < rc.2 then (some rc.1, rc.2) else b

lemma foldl_pickBetter_spec {R : Type} :
    ∀ (l : List (R × ℚ)) (b : Option R) (bc : ℚ),
    (List.foldl pickBetter (b, bc) l = (b, bc) ∧ ∀ x ∈ l, x.2 ≤ bc) ∨
    (∃ x ∈ l, (List.foldl pickBetter (b, bc) l).1 = some x.1 ∧
      (List.foldl pickBetter (b, bc) l).2 = x.2 ∧ bc < x.2 ∧ ∀ y ∈ l, y.2 ≤ x.2) := by
  intro l
  induction l with
  | nil => intro b bc; exact Or.inl ⟨rfl, by simp⟩
  | cons x xs ih =>
    intro b bc
    by_cases hx : bc < x.2
    · have hstep : List.foldl pickBetter (b, bc) (x :: xs)
          = List.foldl pickBetter (some x.1, x.2) xs := by
        simp [List.foldl_cons, pickBetter, hx]
      rcases ih (some x.1) x.2 with ⟨heq, hall⟩ | ⟨z, hz, h1, h2, hxz, hall⟩
      · refine Or.inr ⟨x, by simp, ?_, ?_, hx, ?_⟩
        · rw [hstep, heq]
        · rw [hstep, heq]
        · intro y hy
          rcases List.mem_cons.mp hy with rfl | hy'
          · exact le_refl _
          · exact hall y hy'
      · refine Or.inr ⟨z, List.mem_cons_of_mem _ hz, ?_, ?_, ?_, ?_⟩
        · rw [hstep]; exact h1
        · rw [hstep]; exact h2
        · exact lt_trans hx hxz
        · intro y hy
          rcases List.mem_cons.mp hy with rfl | hy'
          · exact le_of_lt hxz
          · exact hall y hy'
    · have hstep : List.foldl pickBetter (b, bc) (x :: xs)
          = List.foldl pickBetter (b, bc) xs := by
        simp [List.foldl_cons, pickBetter, hx]
      rcases ih b bc with ⟨heq, hall⟩ | ⟨z, hz, h1, h2, hlt, hall⟩
      · refine Or.inl ⟨by rw [hstep, heq], ?_⟩
        intro y hy
        rcases List.mem_cons.mp hy with rfl | hy'
        · exact le_of_not_lt hx
        · exact hall y hy'
      · refine Or.inr ⟨z, List.mem_cons_of_mem _ hz, by rw [hstep]; exact h1,
          by rw [hstep]; exact h2, hlt, ?_⟩
        intro y hy
        rcases List.mem_cons.mp hy with rfl | hy'
        · exact le_of_not_lt hx |>.trans (le_of_lt hlt)
        · exact hall y hy'

lemma novaGo_exhausted (outcomes : ℕ → NovaAttempt R) (emptyFall : R)
    (r : ℕ → R) (c : ℕ → ℚ) :
    ∀ (remaining attempt : ℕ) (best : Option R) (bestC : ℚ),
    (∀ i, attempt ≤ i → i ≤ attempt + remaining → outcomes i = .ok (r i) (c i)) →
    (∀ i, attempt ≤ i → i ≤ attempt + remaining → c i < 95) →
    (novaGo outcomes emptyFall remaining attempt best bestC).2 =
      some (((List.foldl pickBetter (best, bestC)
        ((List.range (remaining + 1)).map
          (fun k => (r (attempt + k), c (attempt + k))))).1).getD emptyFall) := by
  intro remaining
  induction remaining with
  | zero =>
    intro attempt best bestC hok hlt
    have h1 : outcomes attempt = .ok (r attempt) (c attempt) :=
      hok attempt (le_refl _) (by omega)
    have h2 : ¬ ((95 : ℚ) ≤ c attempt) := not_le.mpr (hlt attempt (le_refl _) (by omega))
    simp only [novaGo, h1, if_neg h2]
    rw [show (List.range (0 + 1)).map
        (fun k => ((r (attempt + k) : R), c (attempt + k)))
        = [(r attempt, c attempt)] from rfl]
    simp only [List.foldl_cons, List.foldl_nil, pickBetter]
    rcases best with _ | b <;> by_cases h3 : bestC < c attempt <;> simp [h3]
  | succ rem ih =>
    intro attempt best bestC hok hlt
    have h1 : outcomes attempt = .ok (r attempt) (c attempt) :=
      hok attempt (le_refl _) (by omega)
    have h2 : ¬ ((95 : ℚ) ≤ c attempt) := not_le.mpr (hlt attempt (le_refl _) (by omega))
    have hrec := ih (attempt + 1)
      (if bestC < c attempt then ((some (r attempt) : Option R), c attempt) else (best, bestC)).1
      (if bestC < c attempt then ((some (r attempt) : Option R), c attempt) else (best, bestC)).2
      (fun i hi hi' => hok i (by omega) (by omega))
      (fun i hi hi' => hlt i (by omega) (by omega))
    have hlist : (List.range (rem + 1 + 1)).map (fun k => (r (attempt + k), c (attempt + k)))
        = (r attempt, c attempt) ::
          (List.range (rem + 1)).map (fun k => (r (attempt + 1 + k), c (attempt + 1 + k))) := by
      rw [List.range_succ_eq_map]
      simp only [List.map_cons, Nat.add_zero, List.map_map]
      congr 1
      apply List.map_congr_left
      intro k _
      have hk : attempt + (k + 1) = attempt + 1 + k := by omega
      simp only [Function.comp, hk]
    simp only [novaGo, h1, if_neg h2]
    rw [hlist, List.foldl_cons]
    have hpick : pickBetter ((best : Option R), bestC) (r attempt, c attempt)
        = (if bestC < c attempt then ((some (r attempt) : Option R), c attempt) else (best, bestC)) := by
      simp only [pickBetter]
    rw [hpick]
    exact hrec

/-- C2 (amended): in `NovaSECExtractor.search_and_extract`, when every
attempt completes, none reaches the 95% threshold, and the retry budget is
exhausted: if some attempt had positive completeness, the controller
returns the record of an attempt whose completeness is maximal among all
attempts (the bestSoFar record) — not the last attempt's record; the
returned value does not carry the completeness score.  If no attempt ever
beat completeness 0, `best_result` is never set (the update test is a
strict `>`), `_save_results(None)` at line 882 raises, and the exception
handler at lines 885-894 returns the `_create_empty_result` error record —
not any attempt's record.  The private-company variant returns the last
attempt's record instead, see the counterexample. -/
theorem nova_exhausted_returns_bestSoFar {R : Type} (outcomes : ℕ → NovaAttempt R)
    (emptyFall : R) (maxRetries : ℕ) (r : ℕ → R) (c : ℕ → ℚ)
    (hok : ∀ i, i ≤ maxRetries → outcomes i = .ok (r i) (c i))
    (hlt : ∀ i, i ≤ maxRetries → c i < 95) :
    ((∃ i, i ≤ maxRetries ∧ 0 < c i) →
      ∃ j, j ≤ maxRetries ∧
        (novaSearchAndExtract outcomes emptyFall maxRetries).2 = some (r j) ∧
        ∀ i, i ≤ maxRetries → c i ≤ c j) ∧
    ((∀ i, i ≤ maxRetries → c i ≤ 0) →
      (novaSearchAndExtract outcomes emptyFall maxRetries).2 = some emptyFall) := by
  unfold novaSearchAndExtract
  rw [novaGo_exhausted outcomes emptyFall r c maxRetries 0 none 0
    (fun i hi hi' => hok i (by omega)) (fun i hi hi' => hlt i (by omega))]
  constructor
  · intro hpos
    rcases foldl_pickBetter_spec
        ((List.range (maxRetries + 1)).map (fun k => (r (0 + k), c (0 + k)))) none 0 with
      ⟨_, hall⟩ | ⟨x, hx, h1, _, _, hall⟩
    · exfalso
      obtain ⟨i, hi, hci⟩ := hpos
      have hmem : ((r (0 + i), c (0 + i)) : R × ℚ) ∈
          (List.range (maxRetries + 1)).map (fun k => (r (0 + k), c (0 + k))) :=
        List.mem_map_of_mem _ (List.mem_range.mpr (by omega))
      have := hall _ hmem
      simp only [Nat.zero_add] at this
      exact absurd hci (not_lt.mpr this)
    · obtain ⟨k, hk, hxk⟩ := List.mem_map.mp hx
      have hkle : k ≤ maxRetries := by
        have := List.mem_range.mp hk
        omega
      refine ⟨k, hkle, ?_, ?_⟩
      · rw [h1, ← hxk]
        simp
      · intro i hi
        have hmem : ((r (0 + i), c (0 + i)) : R × ℚ) ∈
            (List.range (maxRetries + 1)).map (fun k => (r (0 + k), c (0 + k))) :=
          List.mem_map_of_mem _ (List.mem_range.mpr (by omega))
        have h := hall _ hmem
        rw [← hxk] at h
        simpa using h
  · intro hzero
    rcases foldl_pickBetter_spec
        ((List.range (maxRetries + 1)).map (fun k => (r (0 + k), c (0 + k)))) none 0 with
      ⟨heq, _⟩ | ⟨x, hx, _, _, hlt0, _⟩
    · rw [heq]
      simp
    · exfalso
      obtain ⟨k, hk, hxk⟩ := List.mem_map.mp hx
      have hkle : k ≤ maxRetries := by
        have := List.mem_range.mp hk
        omega
      have hck : c (0 + k) ≤ 0 := by
        simpa using hzero k hkle
      rw [← hxk] at hlt0
      exact absurd hlt0 (not_lt.mpr hck)

/-- Witness for `nova_exhausted_returns_bestSoFar`: four attempts with
completeness `[40, 70, 55, 90]`, none reaching 95, return a
maximal-completeness record; and an all-zero run returns the empty error
record `99`. -/
theorem nova_exhausted_returns_bestSoFar_witness :
    (∃ j, j ≤ 3 ∧
      (novaSearchAndExtract
        (fun i => NovaAttempt.ok (i : ℕ) ([(40 : ℚ), 70, 55, 90].getD i 0)) (0 : ℕ) 3).2
        = some j ∧
      ∀ i, i ≤ 3 → [(40 : ℚ), 70, 55, 90].getD i 0 ≤ [(40 : ℚ), 70, 55, 90].getD j 0) ∧
    (novaSearchAndExtract
      (fun i => NovaAttempt.ok (i : ℕ) (0 : ℚ)) (99 : ℕ) 2).2 = some 99 :=
  ⟨(nova_exhausted_returns_bestSoFar
      (fun i => NovaAttempt.ok (i : ℕ) ([(40 : ℚ), 70, 55, 90].getD i 0)) 0 3
      (fun i => i) (fun i => [(40 : ℚ), 70, 55, 90].getD i 0)
      (fun _ _ => rfl) (by decide)).1 ⟨1, by decide⟩,
    (nova_exhausted_returns_bestSoFar
      (fun i => NovaAttempt.ok (i : ℕ) (0 : ℚ)) 99 2
      (fun i => i) (fun _ => (0 : ℚ))
      (fun _ _ => rfl) (fun _ _ => by norm_num)).2
      (fun _ _ => le_refl 0)⟩

/-- The retry loop of
`NovaPrivateCompanyExtractor.extract_private_company_data`
(`src/private_company_extractor.py`, lines 199-272).  `max_attempts = 3`,
attempts numbered 1..3.  Each attempt either completes with a parsed
record and its completeness (`some`), or raises (`none`, the `except` at
line 267).  On success with completeness below 95: retry while attempts
remain (line 260-262), otherwise return the CURRENT attempt's record and
score (lines 263-265) — there is no best-so-far tracking in this variant.
On exception at the final attempt, return the fallback with score 0
(lines 269-270). -/
def privGo {R : Type} (outcomes : ℕ → Option (R × ℚ)) (fallback : R) :
    ℕ → ℕ → R × ℚ
  | 0, attempt =>
    (match outcomes attempt with
    | some rc => rc
    | none => (fallback, 0))
  | Nat.succ rem, attempt =>
    (match outcomes attempt with
    | some rc =>
      if (95 : ℚ) ≤ rc.2 then rc else privGo outcomes fallback rem (attempt + 1)
    | none => privGo outcomes fallback rem (attempt + 1))

/-- Entry point of `NovaPrivateCompanyExtractor.extract_private_company_data`
(`src/private_company_extractor.py`, lines 189-272): attempts 1..3. -/
def extractPrivateCompanyData {R : Type} (outcomes : ℕ → Option (R × ℚ))
    (fallback : R) : R × ℚ :=
  privGo outcomes fallback 2 1

/-- C2 counterexample: in the private-company retry controller, with
attempt completeness `[70, 40, 30]` (none ≥ 95), the exhausted loop
returns the LAST attempt's record (103, completeness 30), not the record
of the attempt with the highest completeness seen (101, completeness 70),
refuting the claim as stated for
`NovaPrivateCompanyExtractor.extract_private_company_data`. -/
theorem private_exhausted_returns_last_not_best :
    extractPrivateCompanyData
        (fun i => some ((100 + i : ℕ), [(0 : ℚ), 70, 40, 30].getD i 0)) (0 : ℕ)
      = (103, 30) ∧
    (fun i => some ((100 + i : ℕ), [(0 : ℚ), 70, 40, 30].getD i 0)) 1
      = some (101, 70) ∧
    (103 : ℕ) ≠ 101 ∧ ((30 : ℚ) < 70) := by
  refine ⟨by decide, by decide, by decide, by decide⟩

end RetryTheorems

section Dedup

/-- An article dictionary as built by
`SerperAdverseMediaSearcher._perform_search`
(`src/adverse_media_scanner.py`, lines 441-460): keys `title`, `link`,
`snippet`, `source`, `date`. -/
structure Article where
  title : Str
  link : Str
  snippet : Str
  src : Str
  date : Str
deriving DecidableEq

/-- The loop of `SerperAdverseMediaSearcher._deduplicate_articles`
(`src/adverse_media_scanner.py`, lines 567-576): `seen` is the `seen_urls`
set; an article is kept iff its `link` is non-empty (`if url and ...`,
Python truthiness) and not seen before, in which case the url is added to
`seen`. -/
def deduplicateGo (seen : List Str) : List Article → List Article
  | [] => []
  | a :: rest =>
    if a.link ≠ [] ∧ a.link ∉ seen then a :: deduplicateGo (a.link :: seen) rest
    else deduplicateGo seen rest

/-- Embedding of `SerperAdverseMediaSearcher._deduplicate_articles`
(`src/adverse_media_scanner.py`, lines 564-576). -/
def deduplicateArticles (articles : List Article) : List Article :=
  deduplicateGo [] articles

/-- URL normalization as described by the SPEC (not present in the code):
"normalize each URL (strip protocol/www, trailing slash)".  Used only to
compare the spec's wording with the code's behaviour. -/
def specNormalizeUrl (u : Str) : Str :=
  let u1 := if "http://".toList.isPrefixOf u then u.drop 7 else u
  let u2 := if "https://".toList.isPrefixOf u1 then u1.drop 8 else u1
  let u3 := if "www.".toList.isPrefixOf u2 then u2.drop 4 else u2
  if u3.getLast? = some '/' then u3.dropLast else u3

lemma deduplicateGo_sublist : ∀ (l : List Article) (seen : List Str),
    (deduplicateGo seen l).Sublist l := by
  intro l
  induction l with
  | nil => intro seen; simp [deduplicateGo]
  | cons a rest ih =>
    intro seen
    by_cases h : a.link ≠ [] ∧ a.link ∉ seen
    · simpa [deduplicateGo, h] using (ih (a.link :: seen)).cons₂ a
    · simpa [deduplicateGo, h] using (ih seen).cons a

lemma deduplicateGo_link_notin_seen : ∀ (l : List Article) (seen : List Str)
    (a : Article), a ∈ deduplicateGo seen l → a.link ∉ seen := by
  intro l
  induction l with
  | nil => intro seen a ha; simp [deduplicateGo] at ha
  | cons b rest ih =>
    intro seen a ha
    by_cases h : b.link ≠ [] ∧ b.link ∉ seen
    · simp only [deduplicateGo, if_pos h, List.mem_cons] at ha
      rcases ha with rfl | ha'
      · exact h.2
      · have := ih (b.link :: seen) a ha'
        intro hmem
        exact this (List.mem_cons_of_mem _ hmem)
    · simp only [deduplicateGo, if_neg h] at ha
      exact ih seen a ha

lemma deduplicateGo_countP_find (u : Str) (hu : u ≠ []) :
    ∀ (l : List Article) (seen : List Str), u ∉ seen →
    ((deduplicateGo seen l).countP (fun a => a.link == u)
        = (if ∃ a ∈ l, a.link = u then 1 else 0)) ∧
      (deduplicateGo seen l).find? (fun a => a.link == u)
        = l.find? (fun a => a.link == u) := by
  intro l
  induction l with
  | nil => intro seen _; simp [deduplicateGo]
  | cons b rest ih =>
    intro seen hseen
    by_cases hb : b.link ≠ [] ∧ b.link ∉ seen
    · by_cases hbu : b.link = u
      · constructor
        · have hzero : (deduplicateGo (b.link :: seen) rest).countP
              (fun a => a.link == u) = 0 := by
            apply List.countP_eq_zero.mpr
            intro a ha
            have := deduplicateGo_link_notin_seen rest (b.link :: seen) a ha
            simp only [beq_iff_eq]
            intro hau
            exact this (by rw [hau, hbu]; exact List.mem_cons_self _ _)
          simp only [deduplicateGo, if_pos hb, List.countP_cons, hzero]
          simp [hbu]
        · simp only [deduplicateGo, if_pos hb]
          rw [List.find?_cons_of_pos, List.find?_cons_of_pos] <;> simp [hbu]
      · have hnotin : u ∉ b.link :: seen := by
          intro hmem
          rcases List.mem_cons.mp hmem with h | h
          · exact hbu h.symm
          · exact hseen h
        obtain ⟨ihc, ihf⟩ := ih (b.link :: seen) hnotin
        constructor
        · simp only [deduplicateGo, if_pos hb, List.countP_cons, ihc]
          have : (∃ a ∈ b :: rest, a.link = u) ↔ (∃ a ∈ rest, a.link = u) := by
            constructor
            · rintro ⟨a, ha, hau⟩
              rcases List.mem_cons.mp ha with rfl | ha'
              · exact absurd hau hbu
              · exact ⟨a, ha', hau⟩
            · rintro ⟨a, ha, hau⟩
              exact ⟨a, List.mem_cons_of_mem _ ha, hau⟩
          rw [if_congr this rfl rfl]
          simp [hbu]
        · simp only [deduplicateGo, if_pos hb]
          rw [List.find?_cons_of_neg, List.find?_cons_of_neg] <;> simp [hbu, ihf]
    · have hbu : b.link ≠ u := by
        intro h
        apply hb
        constructor
        · rw [h]; exact hu
        · rw [h]; exact hseen
      obtain ⟨ihc, ihf⟩ := ih seen hseen
      constructor
      · simp only [deduplicateGo, if_neg hb, ihc]
        have : (∃ a ∈ b :: rest, a.link = u) ↔ (∃ a ∈ rest, a.link = u) := by
          constructor
          · rintro ⟨a, ha, hau⟩
            rcases List.mem_cons.mp ha with rfl | ha'
            · exact absurd hau hbu
            · exact ⟨a, ha', hau⟩
          · rintro ⟨a, ha, hau⟩
            exact ⟨a, List.mem_cons_of_mem _ ha, hau⟩
        rw [if_congr this rfl rfl]
      · simp only [deduplicateGo, if_neg hb]
        rw [List.find?_cons_of_neg] <;> simp [hbu, ihf]

end Dedup

/-- C3 (amended): deduplication keeps the first-seen Hit per EXACT raw URL
string (no normalization): for any article list containing an entry with a
given non-empty URL, the output contains exactly one entry with that URL,
it is the first-seen one, and the order of first appearance is preserved
(the output is a sublist of the input). -/
theorem dedup_first_seen_exact_url (l : List Article) (u : Str) (hu : u ≠ [])
    (hmem : ∃ a ∈ l, a.link = u) :
    (deduplicateArticles l).countP (fun a => a.link == u) = 1 ∧
    (deduplicateArticles l).find? (fun a => a.link == u)
      = l.find? (fun a => a.link == u) ∧
    (deduplicateArticles l).Sublist l := by
  obtain ⟨hc, hf⟩ := deduplicateGo_countP_find u hu l [] (by simp)
  exact ⟨by rw [deduplicateArticles, hc, if_pos hmem],
    by rw [deduplicateArticles, hf], deduplicateGo_sublist l []⟩

/-- Witness for `dedup_first_seen_exact_url`: three articles, the first and
third sharing the URL `u`; exactly one survives and it is the first. -/
theorem dedup_first_seen_exact_url_witness :
    ("u1".toList ≠ ([] : Str) ∧
      ∃ a ∈ [Article.mk "t1".toList "u1".toList [] [] [],
             Article.mk "t2".toList "u2".toList [] [] [],
             Article.mk "t3".toList "u1".toList [] [] []], a.link = "u1".toList) ∧
    (deduplicateArticles
        [Article.mk "t1".toList "u1".toList [] [] [],
         Article.mk "t2".toList "u2".toList [] [] [],
         Article.mk "t3".toList "u1".toList [] [] []]).countP
      (fun a => a.link == "u1".toList) = 1 ∧
    (deduplicateArticles
        [Article.mk "t1".toList "u1".toList [] [] [],
         Article.mk "t2".toList "u2".toList [] [] [],
         Article.mk "t3".toList "u1".toList [] [] []]).find?
      (fun a => a.link == "u1".toList)
      = [Article.mk "t1".toList "u1".toList [] [] [],
         Article.mk "t2".toList "u2".toList [] [] [],
         Article.mk "t3".toList "u1".toList [] [] []].find?
        (fun a => a.link == "u1".toList) ∧
    (deduplicateArticles
        [Article.mk "t1".toList "u1".toList [] [] [],
         Article.mk "t2".toList "u2".toList [] [] [],
         Article.mk "t3".toList "u1".toList [] [] []]).Sublist
      [Article.mk "t1".toList "u1".toList [] [] [],
       Article.mk "t2".toList "u2".toList [] [] [],
       Article.mk "t3".toList "u1".toList [] [] []] :=
  ⟨⟨by decide, by decide⟩,
    dedup_first_seen_exact_url _ ("u1".toList) (by decide) (by decide)⟩

/-- C3 counterexample: the code deduplicates by the raw URL string, not by
the normalized URL.  Two articles whose URLs agree after the spec's
normalization (strip protocol/www and trailing slash) but differ as raw
strings BOTH survive `_deduplicate_articles`, refuting "exactly one
candidate per normalized URL". -/
theorem dedup_no_url_normalization :
    specNormalizeUrl "https://www.example.com/news/".toList
      = specNormalizeUrl "example.com/news".toList ∧
    Article.mk "a".toList "https://www.example.com/news/".toList [] [] []
      ≠ Article.mk "b".toList "example.com/news".toList [] [] [] ∧
    deduplicateArticles
        [Article.mk "a".toList "https://www.example.com/news/".toList [] [] [],
         Article.mk "b".toList "example.com/news".toList [] [] []]
      = [Article.mk "a".toList "https://www.example.com/news/".toList [] [] [],
         Article.mk "b".toList "example.com/news".toList [] [] []] ∧
    (deduplicateArticles
        [Article.mk "a".toList "https://www.example.com/news/".toList [] [] [],
         Article.mk "b".toList "example.com/news".toList [] [] []]).countP
      (fun a => specNormalizeUrl a.link == specNormalizeUrl "example.com/news".toList)
      = 2 := by
  refine ⟨by decide, by decide, by decide, by decide⟩

section AdverseFilter

/-- The adverse keyword list of
`SerperAdverseMediaSearcher._quick_adverse_filter`
(`src/adverse_media_scanner.py`, lines 504-527).  Note that `violation`
appears twice in the source list (lines 510 and 518). -/
def adverseKeywords : List Str :=
  ["lawsuit", "litigation", "sued", "prosecution", "indictment", "guilty",
   "convicted", "settlement", "legal action", "class action", "complaint",
   "fine", "penalty", "sanction", "violation", "fraud", "embezzlement",
   "mismanagement", "bankruptcy", "insolvent", "cfpb", "sec charges",
   "investigation", "probe", "inquiry", "scandal", "controversy",
   "misconduct", "wrongdoing", "corruption", "bribery",
   "breach", "violation", "non-compliance", "regulatory action",
   "consent order", "cease and desist",
   "discrimination", "harassment", "unsafe", "toxic", "pollution",
   "recall", "defect", "safety issue", "data breach", "hack",
   "fired", "terminated", "resigned", "ousted", "departure scandal"
  ].map String.toList

/-- The exclusion keyword list of `_quick_adverse_filter`
(`src/adverse_media_scanner.py`, lines 530-534). -/
def exclusionKeywords : List Str :=
  ["acquires", "acquisition", "partnership", "collaboration",
   "launches", "announces", "introduces", "expands",
   "awards", "recognition", "achievement", "milestone"].map String.toList

/-- The combined text: lowered title, a space, lowered snippet
(`src/adverse_media_scanner.py`, line 541). -/
def combinedText (a : Article) : Str :=
  lowerStr a.title ++ (' ' :: lowerStr a.snippet)

/-- The per-article decision of the `_quick_adverse_filter` loop body
(`src/adverse_media_scanner.py`, lines 538-560): skip when the company
name is absent from the combined text (line 545), skip when any exclusion
keyword occurs (line 549), keep when at least 2 entries of the adverse
keyword list match the combined text (line 556), otherwise keep iff some
adverse keyword occurs in the title (line 559). -/
def keepArticle (company : Str) (a : Article) : Bool :=
  if ¬ (containsSub (combinedText a) (lowerStr company)) then false
  else if exclusionKeywords.any (fun k => containsSub (combinedText a) k) then false
  else if 2 ≤ adverseKeywords.countP (fun k => containsSub (combinedText a) k) then true
  else adverseKeywords.any (fun k => containsSub (lowerStr a.title) k)

/-- Embedding of `SerperAdverseMediaSearcher._quick_adverse_filter`
(`src/adverse_media_scanner.py`, lines 497-562): the loop appends each
kept article to `filtered_articles` in input order. -/
def quickAdverseFilter (articles : List Article) (company : Str) : List Article :=
  articles.foldl (fun acc a => if keepArticle company a then acc ++ [a] else acc) []

lemma quickAdverseFilter_foldl_eq (company : Str) :
    ∀ (articles : List Article) (acc : List Article),
    articles.foldl (fun acc a => if keepArticle company a then acc ++ [a] else acc) acc
      = acc ++ articles.filter (keepArticle company) := by
  intro articles
  induction articles with
  | nil => intro acc; simp
  | cons a rest ih =>
    intro acc
    by_cases h : keepArticle company a
    · simp only [List.foldl_cons, if_pos h, ih, List.filter_cons, h]
      simp
    · simp only [List.foldl_cons, if_neg h, ih, List.filter_cons]

/-- C10 (amended): the adverse-media pre-filter equals the declarative
filter by the per-article predicate, hence returns a subsequence of its
input; every kept article contains the lowercased company name in its
combined title+snippet text, contains none of the exclusion keywords, and
either at least two ENTRIES of the adverse keyword list (in which
`violation` is listed twice, so a lone `violation` match counts twice)
occur in the combined text, or at least one adverse keyword occurs in the
title. -/
theorem quick_adverse_filter_characterization (articles : List Article)
    (company : Str) :
    quickAdverseFilter articles company
      = articles.filter (keepArticle company) ∧
    (quickAdverseFilter articles company).Sublist articles ∧
    ∀ a ∈ quickAdverseFilter articles company,
      containsSub (combinedText a) (lowerStr company) = true ∧
      (∀ k ∈ exclusionKeywords, containsSub (combinedText a) k = false) ∧
      (2 ≤ adverseKeywords.countP (fun k => containsSub (combinedText a) k) ∨
        ∃ k ∈ adverseKeywords, containsSub (lowerStr a.title) k = true) := by
  have hfe : quickAdverseFilter articles company
      = articles.filter (keepArticle company) := by
    rw [quickAdverseFilter, quickAdverseFilter_foldl_eq company articles []]
    simp
  refine ⟨hfe, by rw [hfe]; exact List.filter_sublist articles, ?_⟩
  intro a ha
  rw [hfe] at ha
  have hkeep : keepArticle company a = true := List.of_mem_filter ha
  unfold keepArticle at hkeep
  by_cases h1 : containsSub (combinedText a) (lowerStr company)
  · refine ⟨h1, ?_, ?_⟩
    · intro k hk
      by_cases h2 : exclusionKeywords.any (fun k => containsSub (combinedText a) k)
      · rw [if_neg (by simpa using h1), if_pos h2] at hkeep
        exact absurd hkeep (by simp)
      · rw [List.any_eq_true] at h2
        push_neg at h2
        simpa using h2 k hk
    · by_cases h2 : exclusionKeywords.any (fun k => containsSub (combinedText a) k)
      · rw [if_neg (by simpa using h1), if_pos h2] at hkeep
        exact absurd hkeep (by simp)
      · rw [if_neg (by simpa using h1), if_neg h2] at hkeep
        by_cases h3 : 2 ≤ adverseKeywords.countP (fun k => containsSub (combinedText a) k)
        · exact Or.inl h3
        · rw [if_neg h3] at hkeep
          right
          rw [List.any_eq_true] at hkeep
          obtain ⟨k, hk, hck⟩ := hkeep
          exact ⟨k, hk, hck⟩
  · rw [if_pos (by simpa using h1)] at hkeep
    exact absurd hkeep (by simp)

/-- C10 counterexample: an article whose only distinct adverse keyword is
`violation` (and whose title contains no adverse keyword) is KEPT by the
filter, because `violation` is listed twice in the adverse keyword list
and therefore alone satisfies the "2+ matches" branch — refuting the
reading that a kept article must contain at least two adverse keywords in
the combined text or one in the title. -/
theorem quick_adverse_filter_duplicate_violation :
    quickAdverseFilter
        [Article.mk "report".toList "u".toList
          "violation of terms by acme corp".toList [] []] "acme".toList
      = [Article.mk "report".toList "u".toList
          "violation of terms by acme corp".toList [] []] ∧
    (adverseKeywords.dedup.countP
      (fun k => containsSub
        (combinedText (Article.mk "report".toList "u".toList
          "violation of terms by acme corp".toList [] [])) k)) = 1 ∧
    (adverseKeywords.any
      (fun k => containsSub
        (lowerStr (Article.mk "report".toList "u".toList
          "violation of terms by acme corp".toList [] []).title) k)) = false := by
  refine ⟨by decide, by decide, by decide⟩

end AdverseFilter

section CompletionOrder

/-- The adverse-media pipeline stages downstream of the parallel fan-out
(`src/adverse_media_scanner.py`, lines 346-354): the hits of the query
tasks arrive as blocks in completion order and are concatenated
(`_parallel_search`), deduplicated by URL, then pre-filtered. -/
def adverseCandidates (blocks : List (List Article)) (company : Str) :
    List Article :=
  quickAdverseFilter (deduplicateArticles blocks.flatten) company

lemma deduplicateGo_link_toFinset :
    ∀ (l : List Article) (seen : List Str),
    ((deduplicateGo seen l).map (fun a => a.link)).toFinset
      = ((l.map (fun a => a.link)).toFinset.filter
          (fun u => u ∉ seen ∧ u ≠ [])) := by
  intro l
  induction l with
  | nil => intro seen; simp [deduplicateGo]
  | cons a rest ih =>
    intro seen
    by_cases h : a.link ≠ [] ∧ a.link ∉ seen
    · simp only [deduplicateGo, if_pos h, List.map_cons, List.toFinset_cons,
        Finset.filter_insert]
      rw [if_pos ⟨h.2, h.1⟩, ih (a.link :: seen)]
      apply Finset.ext
      intro u
      simp only [Finset.mem_insert, Finset.mem_filter, List.mem_toFinset,
        List.mem_cons]
      constructor
      · rintro (rfl | ⟨hu, hni, hne⟩)
        · exact Or.inl rfl
        · exact Or.inr ⟨hu, fun hm => hni (Or.inr hm), hne⟩
      · rintro (rfl | ⟨hu, hni, hne⟩)
        · exact Or.inl rfl
        · by_cases hua : u = a.link
          · exact Or.inl hua
          · exact Or.inr ⟨hu, fun hm => (by
              rcases hm with h1 | h2
              · exact hua h1
              · exact hni h2), hne⟩
    · simp only [deduplicateGo, if_neg h, List.map_cons, List.toFinset_cons,
        Finset.filter_insert]
      rw [ih seen, if_neg (by
        intro hcon
        exact h ⟨hcon.2, hcon.1⟩)]

/-- C9 (amended): the SET of URLs in the deduplicated candidate list
depends only on the combined multiset of hits, not on the completion order
of the parallel query tasks: permuting the per-query result blocks leaves
the URL set of the `_deduplicate_articles` output unchanged.  (The LIST
order of the output, and which representative survives for a URL returned
with different content by different queries, do depend on completion
order: see the counterexample.) -/
theorem dedup_urlset_completion_order_invariant
    (blocks1 blocks2 : List (List Article))
    (h : blocks1.Perm blocks2) :
    ((deduplicateArticles blocks1.flatten).map (fun a => a.link)).toFinset
      = ((deduplicateArticles blocks2.flatten).map (fun a => a.link)).toFinset := by
  unfold deduplicateArticles
  rw [deduplicateGo_link_toFinset, deduplicateGo_link_toFinset]
  have hperm : (blocks1.flatten.map (fun a => a.link)).Perm
      (blocks2.flatten.map (fun a => a.link)) :=
    (h.flatten).map _
  rw [List.toFinset_eq_of_perm _ _ hperm]

/-- Witness for `dedup_urlset_completion_order_invariant`: two singleton
blocks observed in the two possible completion orders give candidate lists
with the same URL set. -/
theorem dedup_urlset_completion_order_invariant_witness :
    List.Perm
      [[Article.mk "acme fraud lawsuit".toList "u".toList [] [] []],
       [Article.mk "acme fraud probe".toList "u".toList [] [] []]]
      [[Article.mk "acme fraud probe".toList "u".toList [] [] []],
       [Article.mk "acme fraud lawsuit".toList "u".toList [] [] []]] ∧
    ((deduplicateArticles
        [[Article.mk "acme fraud lawsuit".toList "u".toList [] [] []],
         [Article.mk "acme fraud probe".toList "u".toList [] [] []]].flatten).map
      (fun a => a.link)).toFinset
      = ((deduplicateArticles
          [[Article.mk "acme fraud probe".toList "u".toList [] [] []],
           [Article.mk "acme fraud lawsuit".toList "u".toList [] [] []]].flatten).map
        (fun a => a.link)).toFinset :=
  ⟨by decide,
    dedup_urlset_completion_order_invariant _ _ (by decide)⟩

/-- C9 counterexample: with two queries both returning the URL `u` but
with different article content, the final candidate list (dedup + filter)
differs between the two completion orders — first-seen dedup keeps
whichever arrived first — refuting "the final candidate list is identical
regardless of completion order". -/
theorem pipeline_depends_on_completion_order :
    List.Perm
      [[Article.mk "acme fraud lawsuit".toList "u".toList [] [] []],
       [Article.mk "acme fraud probe".toList "u".toList [] [] []]]
      [[Article.mk "acme fraud probe".toList "u".toList [] [] []],
       [Article.mk "acme fraud lawsuit".toList "u".toList [] [] []]] ∧
    adverseCandidates
        [[Article.mk "acme fraud lawsuit".toList "u".toList [] [] []],
         [Article.mk "acme fraud probe".toList "u".toList [] [] []]]
        "acme".toList
      = [Article.mk "acme fraud lawsuit".toList "u".toList [] [] []] ∧
    adverseCandidates
        [[Article.mk "acme fraud probe".toList "u".toList [] [] []],
         [Article.mk "acme fraud lawsuit".toList "u".toList [] [] []]]
        "acme".toList
      = [Article.mk "acme fraud probe".toList "u".toList [] [] []] ∧
    Article.mk "acme fraud lawsuit".toList "u".toList [] [] []
      ≠ Article.mk "acme fraud probe".toList "u".toList [] [] [] := by
  refine ⟨by decide, by decide, by decide, by decide⟩

end CompletionOrder

section ParallelSearch

/-- The collection loop of `SerperAdverseMediaSearcher._parallel_search`
(`src/adverse_media_scanner.py`, lines 473-495): the completed futures
arrive in some order; a successful query contributes its article list
(`all_articles.extend(articles)`), a failing one is caught by the
`except` at line 492 and contributes nothing.  (`_perform_search` itself
already maps any request/parse error to an empty list, lines 464-466.)
The input list is the per-query outcomes in completion order. -/
def parallelSearch (outcomes : List (Except Unit (List Article))) :
    List Article :=
  outcomes.foldl
    (fun acc o =>
      match o with
      | .ok articles => acc ++ articles
      | .error _ => acc) []

lemma parallelSearch_foldl_eq :
    ∀ (outcomes : List (Except Unit (List Article))) (acc : List Article),
    outcomes.foldl
      (fun acc o =>
        match o with
        | .ok articles => acc ++ articles
        | .error _ => acc) acc
      = acc ++ (outcomes.filterMap Except.toOption).flatten := by
  intro outcomes
  induction outcomes with
  | nil => intro acc; simp
  | cons o rest ih =>
    intro acc
    cases o with
    | ok articles =>
      simp only [List.foldl_cons, ih, List.filterMap_cons]
      simp [Except.toOption, List.append_assoc]
    | error e =>
      simp only [List.foldl_cons, ih, List.filterMap_cons]
      simp [Except.toOption]

/-- C7: the aggregator returns exactly the concatenation of the hits of
the successful queries (in completion order); a failing query contributes
zero hits and never aborts the batch, and when every query fails the
result is the empty Hit list, not an error. -/
theorem parallel_search_partial_failure_isolation
    (outcomes : List (Except Unit (List Article))) :
    parallelSearch outcomes = (outcomes.filterMap Except.toOption).flatten ∧
    ((∀ o ∈ outcomes, o = .error ()) → parallelSearch outcomes = []) := by
  have h : parallelSearch outcomes
      = (outcomes.filterMap Except.toOption).flatten := by
    rw [parallelSearch, parallelSearch_foldl_eq outcomes []]
    simp
  refine ⟨h, ?_⟩
  intro hall
  rw [h]
  have : outcomes.filterMap Except.toOption = [] := by
    apply List.filterMap_eq_nil_iff.mpr
    intro o ho
    rw [hall o ho]
    rfl
  rw [this]
  rfl

/-- Witness for `parallel_search_partial_failure_isolation`: five queries
of which two fail still yield the three successful queries' hits; and a
batch where every query fails yields `[]`. -/
theorem parallel_search_partial_failure_isolation_witness :
    parallelSearch
        [Except.ok [Article.mk "a".toList "u1".toList [] [] []],
         Except.error (),
         Except.ok [Article.mk "b".toList "u2".toList [] [] [],
                    Article.mk "c".toList "u3".toList [] [] []],
         Except.error (),
         Except.ok []]
      = [Article.mk "a".toList "u1".toList [] [] [],
         Article.mk "b".toList "u2".toList [] [] [],
         Article.mk "c".toList "u3".toList [] [] []] ∧
    ((∀ o ∈ ([Except.error (), Except.error ()] :
        List (Except Unit (List Article))), o = .error ()) ∧
      parallelSearch ([Except.error (), Except.error ()] :
        List (Except Unit (List Article))) = []) :=
  ⟨by decide,
    (fun o ho => by fin_cases ho <;> rfl),
    (parallel_search_partial_failure_isolation
      ([Except.error (), Except.error ()] :
        List (Except Unit (List Article)))).2
      (fun o ho => by fin_cases ho <;> rfl)⟩

end ParallelSearch

section SecScoring

/-- The boolean signals evaluated against one search result by
`NovaSECExtractor._prioritize_sec_documents`
(`src/nova_sec_extractor.py`, lines 975-1048), abstracted from the
substring tests on title/snippet/url:
`isSecDocument` (line 981), `isSecFiling` (lines 982-983),
`isTargetYear` (lines 1000-1001), `isTargetCompany` (lines 1013-1014),
`curInUrl`/`prevInUrl` (current/previous year in url, lines 1024-1025),
`tenkInTitle` (line 1028; `'form 10-k' in title` implies `'10-k' in
title`, so the disjunction is one signal), `tenqInTitle` and `curInTitle`
(line 1029), `earningsInTitle`/`earningsInSnippet` (line 1030),
`eightkInTitle` and `financialInSnippet` (lines 1031-1032),
`finIndicatorInSnippet` (lines 1035-1036), `symbolInUrl` (line 1047). -/
structure SecSig where
  isSecDocument : Bool
  isSecFiling : Bool
  isTargetYear : Bool
  isTargetCompany : Bool
  curInUrl : Bool
  prevInUrl : Bool
  tenkInTitle : Bool
  tenqInTitle : Bool
  curInTitle : Bool
  earningsInTitle : Bool
  earningsInSnippet : Bool
  eightkInTitle : Bool
  financialInSnippet : Bool
  finIndicatorInSnippet : Bool
  symbolInUrl : Bool
deriving DecidableEq

/-- The priority score computed by `_prioritize_sec_documents`
(`src/nova_sec_extractor.py`, lines 1016-1048).  `partsInUrl` and
`partsInTitle` are the numbers of long (>3 chars) company-name parts found
in the url resp. title by the loop at lines 1039-1044 (each occurrence
adds 15 resp. 10). -/
def priorityScore (s : SecSig) (partsInUrl partsInTitle : ℕ) : ℕ :=
  (if s.isSecDocument then 10 else 0) +
  (if s.isSecFiling then 10 else 0) +
  (if s.isTargetYear then 20 else 0) +
  (if s.isTargetCompany then 25 else 0) +
  (if s.curInUrl then 25 else if s.prevInUrl then 15 else 0) +
  (if s.tenkInTitle then 20 else 0) +
  (if s.tenqInTitle && s.curInTitle then 18 else 0) +
  (if s.earningsInTitle || s.earningsInSnippet then 15 else 0) +
  (if s.eightkInTitle && (s.earningsInSnippet || s.financialInSnippet) then 12
    else if s.eightkInTitle then 5 else 0) +
  (if s.finIndicatorInSnippet then 10 else 0) +
  15 * partsInUrl + 10 * partsInTitle +
  (if s.symbolInUrl then 20 else 0)

/-- C6 (amended): the priority score is monotone in every signal — turning
any one signal from false to true, holding the others fixed, never
decreases the score — and it strictly increases except when the flipped
signal is shadowed: the previous-year-URL signal under a true
current-year-URL signal (whose contribution is an if/elif and is proved
unchanged below), a conjunct of a compound signal whose partner conjunct
is false, or a disjunct of a signal whose other disjunct already holds. -/
theorem priority_score_monotonicity (s : SecSig) (pu pt : ℕ) :
    (priorityScore s pu pt ≤ priorityScore { s with isSecDocument := true } pu pt) ∧
    (priorityScore s pu pt ≤ priorityScore { s with isSecFiling := true } pu pt) ∧
    (priorityScore s pu pt ≤ priorityScore { s with isTargetYear := true } pu pt) ∧
    (priorityScore s pu pt ≤ priorityScore { s with isTargetCompany := true } pu pt) ∧
    (priorityScore s pu pt ≤ priorityScore { s with curInUrl := true } pu pt) ∧
    (priorityScore s pu pt ≤ priorityScore { s with prevInUrl := true } pu pt) ∧
    (priorityScore s pu pt ≤ priorityScore { s with tenkInTitle := true } pu pt) ∧
    (priorityScore s pu pt ≤ priorityScore { s with tenqInTitle := true } pu pt) ∧
    (priorityScore s pu pt ≤ priorityScore { s with curInTitle := true } pu pt) ∧
    (priorityScore s pu pt ≤ priorityScore { s with earningsInTitle := true } pu pt) ∧
    (priorityScore s pu pt ≤ priorityScore { s with earningsInSnippet := true } pu pt) ∧
    (priorityScore s pu pt ≤ priorityScore { s with eightkInTitle := true } pu pt) ∧
    (priorityScore s pu pt ≤ priorityScore { s with financialInSnippet := true } pu pt) ∧
    (priorityScore s pu pt ≤ priorityScore { s with finIndicatorInSnippet := true } pu pt) ∧
    (priorityScore s pu pt ≤ priorityScore { s with symbolInUrl := true } pu pt) ∧
    (s.isSecDocument = false →
      priorityScore s pu pt < priorityScore { s with isSecDocument := true } pu pt) ∧
    (s.isSecFiling = false →
      priorityScore s pu pt < priorityScore { s with isSecFiling := true } pu pt) ∧
    (s.isTargetYear = false →
      priorityScore s pu pt < priorityScore { s with isTargetYear := true } pu pt) ∧
    (s.isTargetCompany = false →
      priorityScore s pu pt < priorityScore { s with isTargetCompany := true } pu pt) ∧
    (s.curInUrl = false →
      priorityScore s pu pt < priorityScore { s with curInUrl := true } pu pt) ∧
    (s.tenkInTitle = false →
      priorityScore s pu pt < priorityScore { s with tenkInTitle := true } pu pt) ∧
    (s.eightkInTitle = false →
      priorityScore s pu pt < priorityScore { s with eightkInTitle := true } pu pt) ∧
    (s.finIndicatorInSnippet = false →
      priorityScore s pu pt < priorityScore { s with finIndicatorInSnippet := true } pu pt) ∧
    (s.symbolInUrl = false →
      priorityScore s pu pt < priorityScore { s with symbolInUrl := true } pu pt) ∧
    (s.prevInUrl = false → s.curInUrl = false →
      priorityScore s pu pt < priorityScore { s with prevInUrl := true } pu pt) ∧
    (s.tenqInTitle = false → s.curInTitle = true →
      priorityScore s pu pt < priorityScore { s with tenqInTitle := true } pu pt) ∧
    (s.curInTitle = false → s.tenqInTitle = true →
      priorityScore s pu pt < priorityScore { s with curInTitle := true } pu pt) ∧
    (s.earningsInTitle = false → s.earningsInSnippet = false →
      priorityScore s pu pt < priorityScore { s with earningsInTitle := true } pu pt) ∧
    (s.earningsInSnippet = false → s.earningsInTitle = false →
      priorityScore s pu pt < priorityScore { s with earningsInSnippet := true } pu pt) ∧
    (s.financialInSnippet = false → s.eightkInTitle = true →
        s.earningsInSnippet = false →
      priorityScore s pu pt < priorityScore { s with financialInSnippet := true } pu pt) ∧
    (s.curInUrl = true →
      priorityScore { s with prevInUrl := true } pu pt = priorityScore s pu pt) := by
  obtain ⟨a1, a2, a3, a4, a5, a6, a7, a8, a9, a10, a11, a12, a13, a14, a15⟩ := s
  refine ⟨?_, ?_, ?_, ?_, ?_, ?_, ?_, ?_, ?_, ?_, ?_, ?_, ?_, ?_, ?_, ?_, ?_,
    ?_, ?_, ?_, ?_, ?_, ?_, ?_, ?_, ?_, ?_, ?_, ?_, ?_, ?_⟩
  · rcases a1 <;> simp [priorityScore] <;> omega
  · rcases a2 <;> simp [priorityScore] <;> omega
  · rcases a3 <;> simp [priorityScore] <;> omega
  · rcases a4 <;> simp [priorityScore] <;> omega
  · rcases a5 <;> rcases a6 <;> simp [priorityScore] <;> omega
  · rcases a5 <;> rcases a6 <;> simp [priorityScore] <;> omega
  · rcases a7 <;> simp [priorityScore] <;> omega
  · rcases a8 <;> rcases a9 <;> simp [priorityScore] <;> omega
  · rcases a8 <;> rcases a9 <;> simp [priorityScore] <;> omega
  · rcases a10 <;> rcases a11 <;> simp [priorityScore] <;> omega
  · rcases a10 <;> rcases a11 <;> rcases a12 <;> rcases a13 <;>
      simp [priorityScore] <;> omega
  · rcases a11 <;> rcases a12 <;> rcases a13 <;> simp [priorityScore] <;> omega
  · rcases a11 <;> rcases a12 <;> rcases a13 <;> simp [priorityScore] <;> omega
  · rcases a14 <;> simp [priorityScore] <;> omega
  · rcases a15 <;> simp [priorityScore] <;> omega
  · intro h; simp only at h; subst h; simp [priorityScore]
  · intro h; simp only at h; subst h; simp [priorityScore]
  · intro h; simp only at h; subst h; simp [priorityScore]
  · intro h; simp only at h; subst h; simp [priorityScore]
  · intro h; simp only at h; subst h
    rcases a6 <;> simp [priorityScore] <;> omega
  · intro h; simp only at h; subst h; simp [priorityScore]
  · intro h; simp only at h; subst h
    rcases a11 <;> rcases a13 <;> simp [priorityScore] <;> omega
  · intro h; simp only at h; subst h; simp [priorityScore]
  · intro h; simp only at h; subst h; simp [priorityScore]
  · intro h h'; simp only at h h'; subst h; subst h'; simp [priorityScore]
  · intro h h'; simp only at h h'; subst h; subst h'; simp [priorityScore]
  · intro h h'; simp only at h h'; subst h; subst h'; simp [priorityScore]
  · intro h h'; simp only at h h'; subst h; subst h'
    rcases a12 <;> rcases a13 <;> simp [priorityScore] <;> omega
  · intro h h'; simp only at h h'; subst h; subst h'
    rcases a12 <;> rcases a13 <;> simp [priorityScore] <;> omega
  · intro h h' h''; simp only at h h' h''; subst h; subst h'; subst h''
    simp [priorityScore]
  · intro h; simp only at h; subst h; simp [priorityScore]

/-- C6 counterexample: turning the previous-year-in-URL signal from false
to true while the current-year-in-URL signal is already true (all other
signals fixed) leaves the priority score unchanged at 25 — the `elif` at
line 1025 of `src/nova_sec_extractor.py` is shadowed — refuting "turning
any one signal from false to true strictly increases the score". -/
theorem priority_score_not_strictly_monotonic :
    priorityScore
        (SecSig.mk false false false false true false false false false
          false false false false false false) 0 0 = 25 ∧
    priorityScore
        (SecSig.mk false false false false true true false false false
          false false false false false false) 0 0 = 25 ∧
    SecSig.mk false false false false true true false false false
        false false false false false false
      = { SecSig.mk false false false false true false false false false
            false false false false false false with prevInUrl := true } ∧
    ¬ (priorityScore
        (SecSig.mk false false false false true false false false false
          false false false false false false) 0 0 <
       priorityScore
        (SecSig.mk false false false false true true false false false
          false false false false false false) 0 0) := by
  refine ⟨by decide, by decide, by decide, by decide⟩

/-- Witness for `priority_score_monotonicity`: at the all-false signal
vector, turning on the SEC-document signal strictly increases the score. -/
theorem priority_score_monotonicity_witness :
    (SecSig.mk false false false false false false false false false
        false false false false false false).isSecDocument = false ∧
    priorityScore
        (SecSig.mk false false false false false false false false false
          false false false false false false) 0 0 <
      priorityScore
        { SecSig.mk false false false false false false false false false
            false false false false false false with isSecDocument := true } 0 0 :=
  ⟨rfl,
    (priority_score_monotonicity
      (SecSig.mk false false false false false false false false false
        false false false false false false) 0 0).2.2.2.2.2.2.2.2.2.2.2.2.2.2.2.1
      rfl⟩

end SecScoring

section SecPrioritize

/-- One entry of the `sec_results` list built by
`_prioritize_sec_documents` (`src/nova_sec_extractor.py`, lines
1050-1062), reduced to what the filter/sort stage inspects: its
`priority_score` and its first-seen position `idx` in the search-result
order. -/
structure SecResult where
  idx : ℕ
  score : ℕ
deriving DecidableEq

/-- Stable insertion for descending sort: an element is placed after every
already-placed element of strictly greater score and before the first
element of smaller-or-equal score.  Because the sort below inserts earlier
input elements after later ones have been sorted, this realizes exactly
the input/output behaviour of Python's stable
`list.sort(key=lambda x: x['priority_score'], reverse=True)`
(`src/nova_sec_extractor.py`, line 1065). -/
def insertByScoreDesc (x : SecResult) : List SecResult → List SecResult
  | [] => [x]
  | y :: ys => if x.score < y.score then y :: insertByScoreDesc x ys
               else x :: y :: ys

/-- Stable descending sort by `priority_score`
(`src/nova_sec_extractor.py`, line 1065). -/
def sortByScoreDesc : List SecResult → List SecResult
  | [] => []
  | x :: xs => insertByScoreDesc x (sortByScoreDesc xs)

/-- The scoring loop of `_prioritize_sec_documents`: each search result
(given by its signal vector and name-part counts, see `priorityScore`)
becomes a `SecResult` carrying its input position. -/
def scoredEntries : ℕ → List (SecSig × ℕ × ℕ) → List SecResult
  | _, [] => []
  | i, s :: rest => ⟨i, priorityScore s.1 s.2.1 s.2.2⟩ :: scoredEntries (i + 1) rest

/-- The filter/sort stage of `_prioritize_sec_documents`
(`src/nova_sec_extractor.py`, lines 1050-1066): keep results with
`priority_score >= 15`, then sort by score descending (stable). -/
def prioritizeSecDocuments (sigs : List (SecSig × ℕ × ℕ)) : List SecResult :=
  sortByScoreDesc ((scoredEntries 0 sigs).filter (fun r => 15 ≤ r.score))

lemma insertByScoreDesc_perm (x : SecResult) :
    ∀ (l : List SecResult), (insertByScoreDesc x l).Perm (x :: l) := by
  intro l
  induction l with
  | nil => simp [insertByScoreDesc]
  | cons y ys ih =>
    by_cases h : x.score < y.score
    · simp only [insertByScoreDesc, if_pos h]
      exact (ih.cons y).trans (List.Perm.swap x y ys)
    · simp [insertByScoreDesc, if_neg h]

lemma sortByScoreDesc_perm :
    ∀ (l : List SecResult), (sortByScoreDesc l).Perm l := by
  intro l
  induction l with
  | nil => simp [sortByScoreDesc]
  | cons x xs ih =>
    exact (insertByScoreDesc_perm x (sortByScoreDesc xs)).trans (ih.cons x)

lemma insertByScoreDesc_pairwise (x : SecResult) :
    ∀ (l : List SecResult),
    l.Pairwise (fun a b => b.score < a.score ∨ (a.score = b.score ∧ a.idx < b.idx)) →
    (∀ y ∈ l, x.idx < y.idx) →
    (insertByScoreDesc x l).Pairwise
      (fun a b => b.score < a.score ∨ (a.score = b.score ∧ a.idx < b.idx)) := by
  intro l
  induction l with
  | nil => intro _ _; simp [insertByScoreDesc]
  | cons y ys ih =>
    intro hpair hidx
    rw [List.pairwise_cons] at hpair
    obtain ⟨hy_rest, hys⟩ := hpair
    by_cases h : x.score < y.score
    · simp only [insertByScoreDesc, if_pos h]
      rw [List.pairwise_cons]
      constructor
      · intro z hz
        have hz' := (insertByScoreDesc_perm x ys).mem_iff.mp hz
        rcases List.mem_cons.mp hz' with rfl | hzys
        · exact Or.inl h
        · exact hy_rest z hzys
      · exact ih hys (fun z hz => hidx z (List.mem_cons_of_mem _ hz))
    · simp only [insertByScoreDesc, if_neg h]
      rw [List.pairwise_cons]
      constructor
      · intro z hz
        rcases List.mem_cons.mp hz with rfl | hzys
        · rcases Nat.lt_or_ge z.score x.score with hlt | hge
          · exact Or.inl hlt
          · have heq : x.score = z.score := by omega
            exact Or.inr ⟨heq, hidx z (List.mem_cons_self _ _)⟩
        · have hyz := hy_rest z hzys
          have hyx : y.score ≤ x.score := Nat.le_of_not_lt h
          rcases hyz with hlt | ⟨heq, _⟩
          · exact Or.inl (by omega)
          · rcases Nat.lt_or_ge z.score x.score with hlt' | hge'
            · exact Or.inl hlt'
            · have heq2 : x.score = z.score := by omega
              exact Or.inr ⟨heq2, hidx z (List.mem_cons_of_mem _ hzys)⟩
      · rw [List.pairwise_cons]
        exact ⟨hy_rest, hys⟩

lemma scoredEntries_idx_lower :
    ∀ (sigs : List (SecSig × ℕ × ℕ)) (i : ℕ) (r : SecResult),
    r ∈ scoredEntries i sigs → i ≤ r.idx := by
  intro sigs
  induction sigs with
  | nil => intro i r hr; simp [scoredEntries] at hr
  | cons s rest ih =>
    intro i r hr
    rcases List.mem_cons.mp hr with rfl | hr'
    · exact le_refl _
    · exact Nat.le_of_succ_le (ih (i + 1) r hr')

lemma scoredEntries_idx_pairwise :
    ∀ (sigs : List (SecSig × ℕ × ℕ)) (i : ℕ),
    (scoredEntries i sigs).Pairwise (fun a b => a.idx < b.idx) := by
  intro sigs
  induction sigs with
  | nil => intro i; simp [scoredEntries]
  | cons s rest ih =>
    intro i
    rw [scoredEntries, List.pairwise_cons]
    refine ⟨?_, ih (i + 1)⟩
    intro r hr
    exact Nat.lt_of_lt_of_le (Nat.lt_succ_self i) (scoredEntries_idx_lower rest (i + 1) r hr)

lemma sortByScoreDesc_pairwise :
    ∀ (l : List SecResult),
    l.Pairwise (fun a b => a.idx < b.idx) →
    (sortByScoreDesc l).Pairwise
      (fun a b => b.score < a.score ∨ (a.score = b.score ∧ a.idx < b.idx)) := by
  intro l
  induction l with
  | nil => intro _; simp [sortByScoreDesc]
  | cons x xs ih =>
    intro hpair
    rw [List.pairwise_cons] at hpair
    obtain ⟨hx_rest, hxs⟩ := hpair
    refine insertByScoreDesc_pairwise x (sortByScoreDesc xs) (ih hxs) ?_
    intro y hy
    exact hx_rest y ((sortByScoreDesc_perm xs).mem_iff.mp hy)

/-- C4: on every input, the output of the `_prioritize_sec_documents`
filter/sort stage contains no candidate with priority score below the
minimum threshold 15, is sorted by score in descending order with ties
broken by the candidates' original first-seen order (stable sort), and is
exactly (a permutation realizing that order of) the subset of scored
candidates meeting the threshold. -/
theorem prioritize_threshold_filter_and_stable_sort
    (sigs : List (SecSig × ℕ × ℕ)) :
    (∀ r ∈ prioritizeSecDocuments sigs, 15 ≤ r.score) ∧
    (prioritizeSecDocuments sigs).Pairwise
      (fun a b => b.score < a.score ∨ (a.score = b.score ∧ a.idx < b.idx)) ∧
    (prioritizeSecDocuments sigs).Perm
      ((scoredEntries 0 sigs).filter (fun r => 15 ≤ r.score)) := by
  refine ⟨?_, ?_, sortByScoreDesc_perm _⟩
  · intro r hr
    have hmem := (sortByScoreDesc_perm _).mem_iff.mp hr
    have := List.of_mem_filter hmem
    simpa using this
  · apply sortByScoreDesc_pairwise
    exact List.Pairwise.sublist (List.filter_sublist _) (scoredEntries_idx_pairwise sigs 0)

end SecPrioritize

section Completeness

/-- The sentinel of the SEC extractor
(`src/nova_sec_extractor.py`, e.g. lines 763, 778). -/
def secSentinel : Str := "Not specified in SEC documents".toList

/-- The long sentinel of the private-company extractor
(`src/private_company_extractor.py`, line 514). -/
def privSentinelLong : Str := "Not specified in available sources".toList

/-- The short sentinel of the private-company extractor
(`src/private_company_extractor.py`, line 514). -/
def privSentinelShort : Str := "Not specified".toList

/-- The `company_information` record scored by
`NovaSECExtractor._calculate_completeness`
(`src/nova_sec_extractor.py`, lines 737-786): the 8 checked main fields
(lines 746-755) and the 4 checked identifier keys (line 773, fetched with
default `''`, so an absent key is the empty string). -/
structure SECCompanyInfo where
  registered_legal_name : Str
  country_of_incorporation : Str
  incorporation_date : Str
  registered_business_address : Str
  business_description : Str
  number_of_employees : Str
  annual_revenue : Str
  annual_sales : Str
  cik : Str
  duns : Str
  lei : Str
  cusip : Str
deriving DecidableEq

/-- The test `if value and value != 'Not specified in SEC documents'`
(`src/nova_sec_extractor.py`, line 763; the identifier variant at line 778
adds `and value != ''`, which is the same test). -/
def filledStd (v : Str) : Bool := !v.isEmpty && !(v == secSentinel)

/-- The extra condition on `business_description`
(`src/nova_sec_extractor.py`, lines 765-767): longer than 100 characters
and not containing `'Business information available'`. -/
def filledBD (v : Str) : Bool :=
  filledStd v && decide (100 < v.length) &&
    !(containsSub v "Business information available".toList)

/-- The `filled_fields` count of `NovaSECExtractor._calculate_completeness`
(`src/nova_sec_extractor.py`, lines 757-779). -/
def secFilledCount (ci : SECCompanyInfo) : ℕ :=
  (if filledStd ci.registered_legal_name then 1 else 0) +
  (if filledStd ci.country_of_incorporation then 1 else 0) +
  (if filledStd ci.incorporation_date then 1 else 0) +
  (if filledStd ci.registered_business_address then 1 else 0) +
  (if filledBD ci.business_description then 1 else 0) +
  (if filledStd ci.number_of_employees then 1 else 0) +
  (if filledStd ci.annual_revenue then 1 else 0) +
  (if filledStd ci.annual_sales then 1 else 0) +
  (if filledStd ci.cik then 1 else 0) +
  (if filledStd ci.duns then 1 else 0) +
  (if filledStd ci.lei then 1 else 0) +
  (if filledStd ci.cusip then 1 else 0)

/-- Python `round(x, 2)` on the exact rational value (round half to even,
as Python's `round`). -/
def round2 (x : ℚ) : ℚ :=
  let y := x * 100
  let f : ℤ := ⌊y⌋
  let r := y - (f : ℚ)
  let n : ℤ :=
    if 1/2 < r then f + 1
    else if r < 1/2 then f
    else if f % 2 = 0 then f else f + 1
  (n : ℚ) / 100

/-- Embedding of `NovaSECExtractor._calculate_completeness`
(`src/nova_sec_extractor.py`, lines 737-786): 12 counted fields,
`(filled_fields / total_fields) * 100` rounded to two decimals
(`return 0.0` when the total is zero, line 782-783 — the total is the
constant 12 here). -/
def secCalculateCompleteness (ci : SECCompanyInfo) : ℚ :=
  let total : ℕ := 12
  if total = 0 then 0
  else round2 ((secFilledCount ci : ℚ) / (total : ℚ) * 100)

/-- The test `id_val and id_val != long and id_val != '' and id_val != 'Not
specified'` (`src/private_company_extractor.py`, lines 514, 528, 535,
539 — all four tests are this same predicate). -/
def privFilled (v : Str) : Bool :=
  !v.isEmpty && !(v == privSentinelLong) && !(v == privSentinelShort)

/-- A `role_val` inside the `leadership_team` dict
(`src/private_company_extractor.py`, lines 524-536): a dict of sub-fields,
a list of dicts of sub-fields, or any other value (which the loop skips,
contributing no fields). -/
inductive RoleVal where
  | sub : List (Str × Str) → RoleVal
  | items : List (List (Str × Str)) → RoleVal
  | scalar : Str → RoleVal
deriving DecidableEq

/-- The `leadership_team` value: either a non-dict (line 518 replaces it
with `{}`, so it contributes no fields; the `isinstance(leadership, str)`
branch at lines 519-522 is unreachable) or a dict of roles. -/
inductive LeadershipVal where
  | strVal : Str → LeadershipVal
  | dictVal : List (Str × RoleVal) → LeadershipVal
deriving DecidableEq

/-- The `PrivateCompanyInfo` dataclass as scored by
`NovaPrivateCompanyExtractor._calculate_completeness`
(`src/private_company_extractor.py`, lines 502-543): 12 scalar fields plus
the `company_identifiers` dict and the `leadership_team` value. -/
structure PrivateCompanyInfo where
  registered_legal_name : Str
  country_of_incorporation : Str
  incorporation_date : Str
  registered_business_address : Str
  business_description : Str
  number_of_employees : Str
  annual_revenue : Str
  annual_sales : Str
  website_url : Str
  funding_rounds : Str
  key_investors : Str
  valuation : Str
  company_identifiers : List (Str × Str)
  leadership_team : LeadershipVal
deriving DecidableEq

/-- (total, filled) contribution of one `role_val`
(`src/private_company_extractor.py`, lines 525-536). -/
def roleValCounts : RoleVal → ℕ × ℕ
  | .sub subs => (subs.length, subs.countP (fun kv => privFilled kv.2))
  | .items its =>
    ((its.map List.length).sum,
      (its.map (fun d => d.countP (fun kv => privFilled kv.2))).sum)
  | .scalar _ => (0, 0)

/-- (total, filled) contribution of `leadership_team`
(`src/private_company_extractor.py`, lines 516-536). -/
def leadershipCounts : LeadershipVal → ℕ × ℕ
  | .strVal _ => (0, 0)
  | .dictVal roles =>
    ((roles.map (fun r => (roleValCounts r.2).1)).sum,
      (roles.map (fun r => (roleValCounts r.2).2)).sum)

/-- The `total_fields` count of the private `_calculate_completeness`. -/
def privTotalFields (p : PrivateCompanyInfo) : ℕ :=
  12 + p.company_identifiers.length + (leadershipCounts p.leadership_team).1

/-- The `filled_fields` count of the private `_calculate_completeness`. -/
def privFilledFields (p : PrivateCompanyInfo) : ℕ :=
  (if privFilled p.registered_legal_name then 1 else 0) +
  (if privFilled p.country_of_incorporation then 1 else 0) +
  (if privFilled p.incorporation_date then 1 else 0) +
  (if privFilled p.registered_business_address then 1 else 0) +
  (if privFilled p.business_description then 1 else 0) +
  (if privFilled p.number_of_employees then 1 else 0) +
  (if privFilled p.annual_revenue then 1 else 0) +
  (if privFilled p.annual_sales then 1 else 0) +
  (if privFilled p.website_url then 1 else 0) +
  (if privFilled p.funding_rounds then 1 else 0) +
  (if privFilled p.key_investors then 1 else 0) +
  (if privFilled p.valuation then 1 else 0) +
  p.company_identifiers.countP (fun kv => privFilled kv.2) +
  (leadershipCounts p.leadership_team).2

/-- Embedding of `NovaPrivateCompanyExtractor._calculate_completeness`
(`src/private_company_extractor.py`, lines 502-543):
`(filled / total * 100) if total_fields > 0 else 0`, no rounding. -/
def privCalculateCompleteness (p : PrivateCompanyInfo) : ℚ :=
  if 0 < privTotalFields p then
    (privFilledFields p : ℚ) / (privTotalFields p : ℚ) * 100
  else 0

/-- Every leaf of a `role_val` is filled. -/
def roleAllFilled : RoleVal → Prop
  | .sub subs => ∀ kv ∈ subs, privFilled kv.2 = true
  | .items its => ∀ d ∈ its, ∀ kv ∈ d, privFilled kv.2 = true
  | .scalar _ => True

/-- Every counted leaf of `leadership_team` is filled. -/
def leadershipAllFilled : LeadershipVal → Prop
  | .strVal _ => True
  | .dictVal roles => ∀ r ∈ roles, roleAllFilled r.2

instance : DecidablePred roleAllFilled := by
  intro rv
  rcases rv with subs | its | s <;> simp only [roleAllFilled] <;> infer_instance

instance : DecidablePred leadershipAllFilled := by
  intro lv
  rcases lv with s | roles <;> simp only [leadershipAllFilled] <;> infer_instance

lemma roleValCounts_filled_eq (rv : RoleVal) (h : roleAllFilled rv) :
    (roleValCounts rv).2 = (roleValCounts rv).1 := by
  rcases rv with subs | its | s
  · simp only [roleValCounts]
    exact List.countP_eq_length.mpr (fun kv hkv => h kv hkv)
  · simp only [roleValCounts]
    congr 1
    apply List.map_congr_left
    intro d hd
    exact List.countP_eq_length.mpr (fun kv hkv => h d hd kv hkv)
  · rfl

lemma leadershipCounts_filled_eq (lv : LeadershipVal)
    (h : leadershipAllFilled lv) :
    (leadershipCounts lv).2 = (leadershipCounts lv).1 := by
  rcases lv with s | roles
  · rfl
  · simp only [leadershipCounts]
    congr 1
    apply List.map_congr_left
    intro r hr
    exact roleValCounts_filled_eq r.2 (h r hr)

/-- C5 (amended): an all-sentinel record scores completeness 0 in both
evaluators; an all-filled record scores 100, where for the private
evaluator "filled" is exactly "present, non-sentinel, non-empty", while
the SEC evaluator additionally requires `business_description` to be
longer than 100 characters and free of `'Business information available'`
(without that extra condition the SEC score is below 100, see the
counterexample). -/
theorem completeness_bounds
    (ciS ciF : SECCompanyInfo) (pS pF : PrivateCompanyInfo)
    (hS : ciS = ⟨secSentinel, secSentinel, secSentinel, secSentinel,
      secSentinel, secSentinel, secSentinel, secSentinel,
      secSentinel, secSentinel, secSentinel, secSentinel⟩)
    (hF1 : filledStd ciF.registered_legal_name = true)
    (hF2 : filledStd ciF.country_of_incorporation = true)
    (hF3 : filledStd ciF.incorporation_date = true)
    (hF4 : filledStd ciF.registered_business_address = true)
    (hFbd : filledBD ciF.business_description = true)
    (hF5 : filledStd ciF.number_of_employees = true)
    (hF6 : filledStd ciF.annual_revenue = true)
    (hF7 : filledStd ciF.annual_sales = true)
    (hF8 : filledStd ciF.cik = true)
    (hF9 : filledStd ciF.duns = true)
    (hF10 : filledStd ciF.lei = true)
    (hF11 : filledStd ciF.cusip = true)
    (hpS : pS = ⟨privSentinelLong, privSentinelLong, privSentinelLong,
      privSentinelLong, privSentinelLong, privSentinelLong, privSentinelLong,
      privSentinelLong, privSentinelLong, privSentinelLong, privSentinelLong,
      privSentinelLong, [], .strVal privSentinelLong⟩)
    (hP1 : privFilled pF.registered_legal_name = true)
    (hP2 : privFilled pF.country_of_incorporation = true)
    (hP3 : privFilled pF.incorporation_date = true)
    (hP4 : privFilled pF.registered_business_address = true)
    (hP5 : privFilled pF.business_description = true)
    (hP6 : privFilled pF.number_of_employees = true)
    (hP7 : privFilled pF.annual_revenue = true)
    (hP8 : privFilled pF.annual_sales = true)
    (hP9 : privFilled pF.website_url = true)
    (hP10 : privFilled pF.funding_rounds = true)
    (hP11 : privFilled pF.key_investors = true)
    (hP12 : privFilled pF.valuation = true)
    (hPid : ∀ kv ∈ pF.company_identifiers, privFilled kv.2 = true)
    (hPlead : leadershipAllFilled pF.leadership_team) :
    secCalculateCompleteness ciS = 0 ∧
    secCalculateCompleteness ciF = 100 ∧
    privCalculateCompleteness pS = 0 ∧
    privCalculateCompleteness pF = 100 := by
  refine ⟨?_, ?_, ?_, ?_⟩
  · subst hS
    have hcount : secFilledCount ⟨secSentinel, secSentinel, secSentinel,
        secSentinel, secSentinel, secSentinel, secSentinel, secSentinel,
        secSentinel, secSentinel, secSentinel, secSentinel⟩ = 0 := by decide
    rw [secCalculateCompleteness, if_neg (by norm_num), hcount]
    norm_num [round2]
  · have hcount : secFilledCount ciF = 12 := by
      rw [secFilledCount, hF1, hF2, hF3, hF4, hFbd, hF5, hF6, hF7, hF8,
        hF9, hF10, hF11]
      norm_num
    rw [secCalculateCompleteness, if_neg (by norm_num), hcount]
    norm_num [round2, Int.floor_eq_iff]
  · subst hpS
    have hcount : privFilledFields ⟨privSentinelLong, privSentinelLong,
        privSentinelLong, privSentinelLong, privSentinelLong, privSentinelLong,
        privSentinelLong, privSentinelLong, privSentinelLong, privSentinelLong,
        privSentinelLong, privSentinelLong, [], .strVal privSentinelLong⟩
        = 0 := by decide
    have htot : privTotalFields ⟨privSentinelLong, privSentinelLong,
        privSentinelLong, privSentinelLong, privSentinelLong, privSentinelLong,
        privSentinelLong, privSentinelLong, privSentinelLong, privSentinelLong,
        privSentinelLong, privSentinelLong, [], .strVal privSentinelLong⟩
        = 12 := by decide
    rw [privCalculateCompleteness, if_pos (by rw [htot]; norm_num), hcount, htot]
    norm_num
  · have hfill : privFilledFields pF = privTotalFields pF := by
      rw [privFilledFields, privTotalFields, hP1, hP2, hP3, hP4, hP5, hP6,
        hP7, hP8, hP9, hP10, hP11, hP12,
        List.countP_eq_length.mpr hPid,
        leadershipCounts_filled_eq pF.leadership_team hPlead]
      norm_num
    have htot : 0 < privTotalFields pF := by
      rw [privTotalFields]
      omega
    rw [privCalculateCompleteness, if_pos htot, hfill]
    rw [div_self (by positivity), one_mul]

/-- Witness for `completeness_bounds`: concrete all-sentinel and
all-filled records for both evaluators. -/
theorem completeness_bounds_witness :
    secCalculateCompleteness ⟨secSentinel, secSentinel, secSentinel,
        secSentinel, secSentinel, secSentinel, secSentinel, secSentinel,
        secSentinel, secSentinel, secSentinel, secSentinel⟩ = 0 ∧
    secCalculateCompleteness ⟨"X".toList, "X".toList, "X".toList, "X".toList,
        List.replicate 101 'a', "X".toList, "X".toList, "X".toList,
        "X".toList, "X".toList, "X".toList, "X".toList⟩ = 100 ∧
    privCalculateCompleteness ⟨privSentinelLong, privSentinelLong,
        privSentinelLong, privSentinelLong, privSentinelLong, privSentinelLong,
        privSentinelLong, privSentinelLong, privSentinelLong, privSentinelLong,
        privSentinelLong, privSentinelLong, [], .strVal privSentinelLong⟩ = 0 ∧
    privCalculateCompleteness ⟨"X".toList, "X".toList, "X".toList, "X".toList,
        "X".toList, "X".toList, "X".toList, "X".toList, "X".toList,
        "X".toList, "X".toList, "X".toList,
        [("CIK".toList, "1".toList)],
        .dictVal [("ceo".toList, .sub [("name".toList, "Jane".toList)])]⟩
      = 100 :=
  completeness_bounds _ _ _ _
    rfl
    (by decide) (by decide) (by decide) (by decide) (by decide) (by decide)
    (by decide) (by decide) (by decide) (by decide) (by decide) (by decide)
    rfl
    (by decide) (by decide) (by decide) (by decide) (by decide) (by decide)
    (by decide) (by decide) (by decide) (by decide) (by decide) (by decide)
    (by decide) (by decide)

/-- C5 counterexample: a record whose every counted field holds the
concrete, non-sentinel, non-empty value `"Acme Corp"` does NOT yield
completeness 100 in the SEC evaluator: `business_description` is 9
characters long, fails the `len > 100` condition at line 766 of
`src/nova_sec_extractor.py`, and the score is `round((11/12)*100, 2)
= 91.67`, refuting "a field is filled exactly when it is present and not
equal to the sentinel or the empty string". -/
theorem sec_completeness_short_description_not_100 :
    filledStd "Acme Corp".toList = true ∧
    secCalculateCompleteness ⟨"Acme Corp".toList, "Acme Corp".toList,
        "Acme Corp".toList, "Acme Corp".toList, "Acme Corp".toList,
        "Acme Corp".toList, "Acme Corp".toList, "Acme Corp".toList,
        "Acme Corp".toList, "Acme Corp".toList, "Acme Corp".toList,
        "Acme Corp".toList⟩ = 9167 / 100 ∧
    (9167 : ℚ) / 100 ≠ 100 := by
  refine ⟨by decide, ?_, by norm_num⟩
  have hcount : secFilledCount ⟨"Acme Corp".toList, "Acme Corp".toList,
      "Acme Corp".toList, "Acme Corp".toList, "Acme Corp".toList,
      "Acme Corp".toList, "Acme Corp".toList, "Acme Corp".toList,
      "Acme Corp".toList, "Acme Corp".toList, "Acme Corp".toList,
      "Acme Corp".toList⟩ = 11 := by decide
  rw [secCalculateCompleteness, if_neg (by norm_num), hcount]
  norm_num [round2, Int.floor_eq_iff]

end Completeness

section NovaParse

/-- The opening brace character, written via its code point. -/
def braceL : Char := Char.ofNat 123

/-- The closing brace character, written via its code point. -/
def braceR : Char := Char.ofNat 125

/-- A JSON value as produced by Python's `json.loads`; numbers keep their
raw character run (no claim depends on numeric values). -/
inductive JVal where
  | null : JVal
  | bool : Bool → JVal
  | num : Str → JVal
  | str : Str → JVal
  | arr : List JVal → JVal
  | obj : List (Str × JVal) → JVal

/-- JSON / Python whitespace skipping (space, tab, newline, return). -/
def skipWs : Str → Str
  | [] => []
  | c :: cs => if c.isWhitespace then skipWs cs else c :: cs

/-- Python `str.strip()`. -/
def pyStrip (s : Str) : Str :=
  ((s.dropWhile Char.isWhitespace).reverse.dropWhile Char.isWhitespace).reverse

def isDigitChar (c : Char) : Bool := '0' ≤ c && c ≤ '9'

/-- One-character string escapes of JSON. -/
def escChar (c : Char) : Option Char :=
  if c = '"' then some '"'
  else if c = '\\' then some '\\'
  else if c = '/' then some '/'
  else if c = 'b' then some (Char.ofNat 8)
  else if c = 'f' then some (Char.ofNat 12)
  else if c = 'n' then some '\n'
  else if c = 'r' then some '\r'
  else if c = 't' then some '\t'
  else none

def hexVal (c : Char) : Option ℕ :=
  if isDigitChar c then some (c.toNat - '0'.toNat)
  else if 'a' ≤ c ∧ c ≤ 'f' then some (c.toNat - 'a'.toNat + 10)
  else if 'A' ≤ c ∧ c ≤ 'F' then some (c.toNat - 'A'.toNat + 10)
  else none

/-- Body of a JSON string after the opening quote: returns the decoded
characters and the input remaining after the closing quote.  (A `\\u`
escape decodes its code point directly; astral surrogate pairs are out of
scope for the texts handled here.) -/
def parseStrBody : Str → Option (Str × Str)
  | [] => none
  | c :: cs =>
    if c = '"' then some ([], cs)
    else if c = '\\' then
      match cs with
      | [] => none
      | e :: cs' =>
        if e = 'u' then
          match cs' with
          | h1 :: h2 :: h3 :: h4 :: cs'' =>
            match hexVal h1, hexVal h2, hexVal h3, hexVal h4 with
            | some a, some b, some c2, some d =>
              (parseStrBody cs'').map
                (fun p => (Char.ofNat (4096 * a + 256 * b + 16 * c2 + d) :: p.1, p.2))
            | _, _, _, _ => none
          | _ => none
        else
          match escChar e with
          | some ch => (parseStrBody cs').map (fun p => (ch :: p.1, p.2))
          | none => none
    else (parseStrBody cs).map (fun p => (c :: p.1, p.2))

/-- A JSON number (RFC 8259 grammar, as `json.loads` accepts): optional
minus, integer part without leading zeros, optional fraction, optional
exponent.  Returns the consumed raw characters and the rest. -/
def parseNum (s : Str) : Option (Str × Str) :=
  let signRest : Str × Str :=
    match s with
    | '-' :: rest => (['-'], rest)
    | _ => ([], s)
  match h : signRest.2 with
  | [] => none
  | c :: cs =>
    if isDigitChar c then
      let intRest : Str × Str :=
        if c = '0' then (['0'], cs)
        else (c :: cs.takeWhile isDigitChar, cs.dropWhile isDigitChar)
      let fracRest : Str × Str :=
        match intRest.2 with
        | '.' :: d :: ds =>
          if isDigitChar d then
            ('.' :: d :: ds.takeWhile isDigitChar, ds.dropWhile isDigitChar)
          else ([], intRest.2)
        | _ => ([], intRest.2)
      let expRest : Str × Str :=
        match fracRest.2 with
        | e :: rest' =>
          if e = 'e' ∨ e = 'E' then
            let esignRest : Str × Str :=
              match rest' with
              | '+' :: r => (['+'], r)
              | '-' :: r => (['-'], r)
              | _ => ([], rest')
            match esignRest.2 with
            | d :: ds =>
              if isDigitChar d then
                (e :: esignRest.1 ++ d :: ds.takeWhile isDigitChar,
                  ds.dropWhile isDigitChar)
              else ([], fracRest.2)
            | [] => ([], fracRest.2)
          else ([], fracRest.2)
        | [] => ([], fracRest.2)
      some (signRest.1 ++ intRest.1 ++ fracRest.1 ++ expRest.1, expRest.2)
    else none

mutual

/-- A JSON value with explicit fuel (one unit per nesting level / element;
`jsonParse` supplies `length + 1`, which suffices since every element
consumes at least one character). -/
def parseVal : ℕ → Str → Option (JVal × Str)
  | 0, _ => none
  | Nat.succ fuel, s =>
    match skipWs s with
    | [] => none
    | c :: cs =>
      if c = braceL then
        match skipWs cs with
        | [] => none
        | c' :: cs' =>
          if c' = braceR then some (JVal.obj [], cs')
          else
            (parseObjItems fuel (c' :: cs')).map (fun p => (JVal.obj p.1, p.2))
      else if c = '[' then
        match skipWs cs with
        | [] => none
        | c' :: cs' =>
          if c' = ']' then some (JVal.arr [], cs')
          else
            (parseArrItems fuel (c' :: cs')).map (fun p => (JVal.arr p.1, p.2))
      else if c = '"' then
        (parseStrBody cs).map (fun p => (JVal.str p.1, p.2))
      else if c = 't' then
        match cs with
        | 'r' :: 'u' :: 'e' :: rest => some (JVal.bool true, rest)
        | _ => none
      else if c = 'f' then
        match cs with
        | 'a' :: 'l' :: 's' :: 'e' :: rest => some (JVal.bool false, rest)
        | _ => none
      else if c = 'n' then
        match cs with
        | 'u' :: 'l' :: 'l' :: rest => some (JVal.null, rest)
        | _ => none
      else
        (parseNum (c :: cs)).map (fun p => (JVal.num p.1, p.2))

/-- Comma-separated values up to the closing `]`. -/
def parseArrItems : ℕ → Str → Option (List JVal × Str)
  | 0, _ => none
  | Nat.succ fuel, s =>
    match parseVal fuel s with
    | none => none
    | some (v, rest) =>
      match skipWs rest with
      | [] => none
      | c :: rest' =>
        if c = ',' then
          (parseArrItems fuel rest').map (fun p => (v :: p.1, p.2))
        else if c = ']' then some ([v], rest')
        else none

/-- Comma-separated `"key": value` pairs up to the closing brace. -/
def parseObjItems : ℕ → Str → Option (List (Str × JVal) × Str)
  | 0, _ => none
  | Nat.succ fuel, s =>
    match skipWs s with
    | [] => none
    | c :: cs =>
      if c = '"' then
        match parseStrBody cs with
        | none => none
        | some (key, rest) =>
          match skipWs rest with
          | [] => none
          | c' :: rest' =>
            if c' = ':' then
              match parseVal fuel rest' with
              | none => none
              | some (v, rest'') =>
                match skipWs rest'' with
                | [] => none
                | c'' :: rest3 =>
                  if c'' = ',' then
                    (parseObjItems fuel rest3).map
                      (fun p => ((key, v) :: p.1, p.2))
                  else if c'' = braceR then some ([(key, v)], rest3)
                  else none
            else none
      else none

end

/-- Python `json.loads` on the texts this pipeline handles: parse one JSON
value and require that only whitespace remains. -/
def jsonParse (s : Str) : Option JVal :=
  match parseVal (s.length + 1) s with
  | some (v, rest) => if (skipWs rest).isEmpty then some v else none
  | none => none

end NovaParse

section NovaParseModel

/-- Python rfind of the closing brace (`src/adverse_media_scanner.py`, line 264):
index of the last closing brace, `none` for Python's `-1`. -/
def rfindBrace : Str → Option ℕ
  | [] => none
  | c :: cs =>
    match rfindBrace cs with
    | some i => some (i + 1)
    | none => if c = braceR then some 0 else none

/-- The code-fence stripping of `_parse_nova_response`
(`src/adverse_media_scanner.py`, lines 240-247). -/
def stripFences (content : Str) : Str :=
  let c1 := pyStrip content
  let c2 := if "```json".toList.isPrefixOf c1 then c1.drop 7 else c1
  let c3 := if "```".toList.isPrefixOf c2 then c2.drop 3 else c2
  let c4 :=
    if "```".toList.isSuffixOf c3 then c3.take (c3.length - 3) else c3
  pyStrip c4

/-- An `AdverseMediaItem` as built at lines 281-294 of
`src/adverse_media_scanner.py`; the looked-up values keep their JSON shape
(`item_data.get(...)` returns whatever the JSON held), and the two scores
keep the value passed to `float(...)`. -/
structure AdverseItem where
  company_name : Str
  title : JVal
  source : JVal
  url : JVal
  published_date : JVal
  snippet : JVal
  adverse_category : JVal
  severity_score : JVal
  description : JVal
  keywords : JVal
  confidence_score : JVal
  extraction_timestamp : Str

/-- Lookup `item_data.get(key, default)`: Python dicts from `json.loads` keep the
LAST value of a duplicated key. -/
def objGet (fields : List (Str × JVal)) (key : Str) (dflt : JVal) : JVal :=
  (fields.foldl (fun acc kv => if kv.1 == key then some kv.2 else acc) none).getD dflt

/-- Whether `float(v)` succeeds: numbers and booleans always convert, and
strings convert when they are numeric (approximated by a numeric character
check; no claim depends on the exact acceptance set). -/
def floatOk : JVal → Bool
  | .num _ => true
  | .bool _ => true
  | .str s =>
    !s.isEmpty && s.all (fun c =>
      isDigitChar c || c = '.' || c = '-' || c = '+' || c = 'e' || c = 'E')
  | _ => false

/-- Building one `AdverseMediaItem` from one element of the parsed array
(`src/adverse_media_scanner.py`, lines 280-295): a non-object element or a
failing `float(...)` raises, which the enclosing handler turns into `[]`
(here: `none`). -/
def mkAdverseItem (company ts : Str) (v : JVal) : Option AdverseItem :=
  match v with
  | .obj fields =>
    let sev := objGet fields "severity_score".toList (.num "0.5".toList)
    let conf := objGet fields "confidence_score".toList (.num "0.8".toList)
    if floatOk sev && floatOk conf then
      some
        { company_name := company
          title := objGet fields "title".toList (.str [])
          source := objGet fields "source".toList (.str [])
          url := objGet fields "url".toList (.str [])
          published_date := objGet fields "published_date".toList (.str [])
          snippet := objGet fields "snippet".toList (.str [])
          adverse_category := objGet fields "adverse_category".toList (.str "Unknown".toList)
          severity_score := sev
          description := objGet fields "description".toList (.str [])
          keywords := objGet fields "keywords".toList (.arr [])
          confidence_score := conf
          extraction_timestamp := ts }
    else none
  | _ => none

/-- The conversion loop over `adverse_data`
(`src/adverse_media_scanner.py`, lines 277-297). -/
def convertItems (company ts : Str) (vs : List JVal) : Option (List AdverseItem) :=
  vs.mapM (mkAdverseItem company ts)

/-- Applying the conversion loop to the parsed value: iterating a
non-array (string, object, number, ...) raises inside the outer
try/except, which returns `[]`. -/
def convertData (company ts : Str) : JVal → List AdverseItem
  | .arr items => (convertItems company ts items).getD []
  | _ => []

/-- Embedding of `AWSNovaProAdverseAnalyzer._parse_nova_response` on the extracted
content text (`src/adverse_media_scanner.py`, lines 240-305): strip code
fences, return `[]` for empty or `'[]'` content, try a direct parse; on
failure truncate at the last closing brace (only if its index is positive)
and re-close the array; every failure path returns `[]` through the
nested except handlers — no parse exception escapes. -/
def parseNovaContent (company ts : Str) (content : Str) : List AdverseItem :=
  let c := stripFences content
  if c.isEmpty || c == "[]".toList then []
  else
    match jsonParse c with
    | some v => convertData company ts v
    | none =>
      match rfindBrace c with
      | some i =>
        if 0 < i then
          match jsonParse (c.take (i + 1) ++ [']']) with
          | some v => convertData company ts v
          | none => []
        else []
      | none => []

/-- The response envelope handling of `_parse_nova_response`
(`src/adverse_media_scanner.py`, lines 231-237): text from
`output.message` or `content`, or `[]` for an unexpected shape. -/
inductive NovaResponse where
  | withOutput : Str → NovaResponse
  | withContent : Str → NovaResponse
  | unexpected : NovaResponse

/-- Full `AWSNovaProAdverseAnalyzer._parse_nova_response`
(`src/adverse_media_scanner.py`, lines 226-305). -/
def parseNovaResponse (company ts : Str) : NovaResponse → List AdverseItem
  | .withOutput t => parseNovaContent company ts t
  | .withContent t => parseNovaContent company ts t
  | .unexpected => []

/-- The greedy regex span `re.search(r'\x7b.*\x7d', text, re.DOTALL)` of
`NovaProExtractor._parse_nova_response` (`src/nova_sec_extractor.py`,
line 309): from the first opening brace to the last closing brace, when
the latter comes after the former. -/
def braceSpan (s : Str) : Option Str :=
  match s.findIdx? (fun c => c = braceL), rfindBrace s with
  | some i, some j => if i < j then some ((s.take (j + 1)).drop i) else none
  | _, _ => none

/-- Embedding of `NovaProExtractor._parse_nova_response`
(`src/nova_sec_extractor.py`, lines 305-341), abstracted over the record
construction `mk` (lines 314-334, which also consults the website-search
collaborator) and over the deterministic fallback strategy
`_enhanced_fallback_extraction` (line 341): no JSON span, an unparsable
span, or a non-object value all fall back — the `except` at line 338
catches every error. -/
def novaSecParseResponse {R : Type} (fallback : R)
    (mk : List (Str × JVal) → R) (s : Str) : R :=
  match braceSpan s with
  | some sub =>
    match jsonParse sub with
    | some (JVal.obj fields) => mk fields
    | some _ => fallback
    | none => fallback
  | none => fallback

lemma rfindBrace_eq_none (ys : Str) (h : braceR ∉ ys) : rfindBrace ys = none := by
  induction ys with
  | nil => rfl
  | cons c cs ih =>
    have hc : c ≠ braceR := fun hcc => h (hcc ▸ List.mem_cons_self c cs)
    have hcs : braceR ∉ cs := fun hm => h (List.mem_cons_of_mem _ hm)
    simp only [rfindBrace, ih hcs, if_neg hc]

lemma rfindBrace_append (pre tail : Str) (h : braceR ∉ tail) :
    rfindBrace (pre ++ tail) = rfindBrace pre := by
  induction pre with
  | nil => simpa using rfindBrace_eq_none tail h
  | cons c cs ih =>
    simp only [List.cons_append, rfindBrace, List.append_eq, ih]

lemma rfindBrace_getLast (pre : Str) (h : pre.getLast? = some braceR) :
    rfindBrace pre = some (pre.length - 1) := by
  induction pre with
  | nil => simp at h
  | cons c cs ih =>
    cases cs with
    | nil =>
      simp only [List.getLast?_singleton, Option.some.injEq] at h
      simp [rfindBrace, h]
    | cons c' cs' =>
      have h' : (c' :: cs').getLast? = some braceR := by
        rwa [List.getLast?_cons_cons] at h
      have hrec := ih h'
      have hstep : rfindBrace (c :: c' :: cs')
          = (match rfindBrace (c' :: cs') with
            | some i => some (i + 1)
            | none => if c = braceR then some 0 else none) := rfl
      rw [hstep, hrec]
      simp

/-- C8: for a collaborator response whose (fence-stripped) content is a
closed array prefix followed by a `\x7d`-free truncated remainder — a
response truncated mid-object — the direct parse having failed, the parser
recovers the valid prefix array by truncating at the last closing brace
and re-closing the outer bracket, and returns its converted items; and in
the SEC variant, a response with no JSON span at all yields the
deterministic fallback strategy's result.  All other paths of both parsers
end in `[]` resp. the fallback by construction — no parse exception
reaches the caller. -/
theorem parse_recovery_never_raises
    (company ts : Str) (content pre tail : Str) (items : List JVal)
    (converted : List AdverseItem)
    (hsplit : stripFences content = pre ++ tail)
    (hpre : pre.getLast? = some braceR)
    (hlen : 2 ≤ pre.length)
    (htail : braceR ∉ tail)
    (hfail : jsonParse (pre ++ tail) = none)
    (hrec : jsonParse (pre ++ [']']) = some (JVal.arr items))
    (hconv : convertItems company ts items = some converted)
    (R : Type) (fallback : R) (mk : List (Str × JVal) → R) (badContent : Str)
    (hbad : braceSpan badContent = none) :
    parseNovaContent company ts content = converted ∧
    novaSecParseResponse fallback mk badContent = fallback := by
  constructor
  · have hbrmem : braceR ∈ pre ++ tail :=
      List.mem_append_left tail (List.mem_of_getLast?_eq_some hpre)
    have hcond : ¬(((pre ++ tail).isEmpty || ((pre ++ tail) == "[]".toList)) = true) := by
      intro hor
      rcases Bool.or_eq_true_iff.mp hor with hemp | heq
      · rw [List.isEmpty_iff] at hemp
        rw [hemp] at hbrmem
        simp at hbrmem
      · rw [beq_iff_eq] at heq
        rw [heq] at hbrmem
        revert hbrmem
        decide
    simp only [parseNovaContent, hsplit]
    rw [if_neg hcond, hfail]
    rw [rfindBrace_append pre tail htail, rfindBrace_getLast pre hpre]
    have hipos : 0 < pre.length - 1 := by omega
    show (if 0 < pre.length - 1 then
        (match jsonParse ((pre ++ tail).take (pre.length - 1 + 1) ++ [']']) with
        | some v => convertData company ts v
        | none => ([] : List AdverseItem))
      else []) = converted
    have htake : (pre ++ tail).take (pre.length - 1 + 1) = pre := by
      have hl : pre.length - 1 + 1 = pre.length := by omega
      rw [hl, List.take_left]
    rw [if_pos hipos, htake, hrec]
    simp [convertData, hconv]
  · simp only [novaSecParseResponse, hbad]

/-- Witness for `parse_recovery_never_raises`: the concrete truncated
response `[\x7b"title": "X"\x7d, \x7b"ti` recovers the one-item prefix
array, and `no json` falls back in the SEC variant. -/
theorem parse_recovery_never_raises_witness :
    stripFences (('[' :: braceL :: "\"title\": \"X\"".toList ++ [braceR])
        ++ (", ".toList ++ [braceL] ++ "\"ti".toList))
      = ('[' :: braceL :: "\"title\": \"X\"".toList ++ [braceR])
        ++ (", ".toList ++ [braceL] ++ "\"ti".toList) ∧
    jsonParse (('[' :: braceL :: "\"title\": \"X\"".toList ++ [braceR])
        ++ (", ".toList ++ [braceL] ++ "\"ti".toList)) = none ∧
    jsonParse (('[' :: braceL :: "\"title\": \"X\"".toList ++ [braceR]) ++ [']'])
      = some (JVal.arr [JVal.obj [("title".toList, JVal.str "X".toList)]]) ∧
    parseNovaContent "acme".toList "t0".toList
        (('[' :: braceL :: "\"title\": \"X\"".toList ++ [braceR])
          ++ (", ".toList ++ [braceL] ++ "\"ti".toList))
      = [{ company_name := "acme".toList
           title := JVal.str "X".toList
           source := JVal.str []
           url := JVal.str []
           published_date := JVal.str []
           snippet := JVal.str []
           adverse_category := JVal.str "Unknown".toList
           severity_score := JVal.num "0.5".toList
           description := JVal.str []
           keywords := JVal.arr []
           confidence_score := JVal.num "0.8".toList
           extraction_timestamp := "t0".toList }] ∧
    novaSecParseResponse (0 : ℕ) (fun _ => 1) "no json".toList = 0 :=
  ⟨rfl, rfl, rfl,
    (parse_recovery_never_raises "acme".toList "t0".toList
      (('[' :: braceL :: "\"title\": \"X\"".toList ++ [braceR])
        ++ (", ".toList ++ [braceL] ++ "\"ti".toList))
      ('[' :: braceL :: "\"title\": \"X\"".toList ++ [braceR])
      (", ".toList ++ [braceL] ++ "\"ti".toList)
      [JVal.obj [("title".toList, JVal.str "X".toList)]]
      _ rfl rfl (by decide) (by decide) rfl rfl rfl
      ℕ 0 (fun _ => 1) "no json".toList rfl).1,
    (parse_recovery_never_raises "acme".toList "t0".toList
      (('[' :: braceL :: "\"title\": \"X\"".toList ++ [braceR])
        ++ (", ".toList ++ [braceL] ++ "\"ti".toList))
      ('[' :: braceL :: "\"title\": \"X\"".toList ++ [braceR])
      (", ".toList ++ [braceL] ++ "\"ti".toList)
      [JVal.obj [("title".toList, JVal.str "X".toList)]]
      _ rfl rfl (by decide) (by decide) rfl rfl rfl
      ℕ 0 (fun _ => 1) "no json".toList rfl).2⟩

end NovaParseModel
